import Mathlib

/-!
# Verification of the toydb slotted-page storage engine

Shallow embedding of `src/toydb/tools/slot_page.c` (the slotted-page codec,
the student-store loader written on top of it, and the index-construction
benchmark driver).  C `short`/`int`/`long` values are modelled as `Int`
(page-local quantities stay far from the 16-bit overflow boundary in every
reachable state), byte buffers as `List Int`, and the in-place mutation of
the page buffer as explicit state passing.
-/

namespace ToyDB

/-- Page size in bytes.  Modelled from the spec: the constant `PF_PAGE_SIZE`
is defined in the PF-layer header `pf.h`, which is not among the sources;
the spec fixes pages at 4 KiB and all concrete scenarios use 4096. -/
def PF_PAGE_SIZE : Nat := 4096

/-- Size in bytes of the C struct `SP_PageHeader` (four `short` fields). -/
def headerSize : Nat := 8

/-- Size in bytes of the C struct `SP_SlotEntry` (two `short` fields). -/
def slotEntrySize : Nat := 4

/-- `SP_MAX_SLOTS` from slot_page.c:
`(PF_PAGE_SIZE - sizeof(SP_PageHeader)) / sizeof(SP_SlotEntry)`. -/
def SP_MAX_SLOTS : Nat := (PF_PAGE_SIZE - headerSize) / slotEntrySize

def SP_OK : Int := 0
def SP_ERR_NOSPACE : Int := -1
def SP_ERR_INVALID_SLOT : Int := -2
def SP_ERR_EMPTY : Int := -3
def SP_INVALID_SLOT : Int := -1

/-- One entry of the slot directory (`struct SP_SlotEntry`). -/
structure SP_SlotEntry where
  offset : Int
  length : Int
deriving Repr, DecidableEq

/-- A slotted page: the header fields of `struct SP_PageHeader`, the slot
directory (`slotCount` entries starting at byte 8 of the page), and the raw
bytes of the page (only the record-heap region `[freePtr, PF_PAGE_SIZE)` is
ever addressed through `bytes`; header and directory live in the structured
fields). -/
structure SP_Page where
  slotCount : Int
  freeListHead : Int
  freePtr : Int
  attrLength : Int
  slots : List SP_SlotEntry
  bytes : List Int
deriving Repr, DecidableEq

/-- Read of the slot-directory entry `SP_SLOT(page, i)`. -/
def slotAt (p : SP_Page) (i : Nat) : SP_SlotEntry := (p.slots[i]?).getD ⟨0, 0⟩

/-- The bytes `buf[off], …, buf[off+len-1]`. -/
def readBytes (buf : List Int) (off len : Nat) : List Int := (buf.drop off).take len

/-- Overwrite `buf` at offset `off` with `src` (C `memcpy` into the page). -/
def writeBytes (buf : List Int) (off : Nat) (src : List Int) : List Int :=
  buf.take off ++ src ++ buf.drop (off + src.length)

/-- C `memmove` within the page: copy `len` bytes from `src` to `dst`,
reading the whole source before writing (overlap-safe). -/
def moveBytes (buf : List Int) (dst src len : Nat) : List Int :=
  writeBytes buf dst (readBytes buf src len)

/-- `SP_InitPage`: zero the page, no slots, free list empty, free pointer at
the page end. -/
def SP_InitPage : SP_Page where
  slotCount := 0
  freeListHead := SP_INVALID_SLOT
  freePtr := PF_PAGE_SIZE
  attrLength := 0
  slots := []
  bytes := List.replicate PF_PAGE_SIZE 0

/-- `SP_PageFreeSpace`: gap between the end of the slot directory and the
free pointer. -/
def SP_PageFreeSpace (p : SP_Page) : Int :=
  p.freePtr - ((headerSize : Int) + p.slotCount * (slotEntrySize : Int))

/-- `SP_PageUsedBytes`: sum of the lengths of the live slots. -/
def SP_PageUsedBytes (p : SP_Page) : Int :=
  ((List.range p.slotCount.toNat).map
    (fun i => if 0 < (slotAt p i).length then (slotAt p i).length else 0)).sum

/-- `SP_ReserveSlot`: pop the tombstone free list if non-empty, else append a
fresh directory entry (bounded by `SP_MAX_SLOTS`).  Returns the slot id (or
`SP_ERR_NOSPACE`) and the updated page.  A freshly appended entry is
immediately overwritten by the caller, mirroring the uninitialised directory
entry the C code exposes. -/
def SP_ReserveSlot (p : SP_Page) : Int × SP_Page :=
  if p.freeListHead ≠ SP_INVALID_SLOT then
    let slotId := p.freeListHead
    let slot := slotAt p slotId.toNat
    (slotId, { p with freeListHead := slot.offset })
  else if (SP_MAX_SLOTS : Int) ≤ p.slotCount then
    (SP_ERR_NOSPACE, p)
  else
    (p.slotCount, { p with slotCount := p.slotCount + 1, slots := p.slots ++ [⟨0, 0⟩] })

/-- The live slot ids of `p` in ascending order, as collected by the first
loop of `SP_CompactPage`. -/
def liveIdx (p : SP_Page) : List Nat :=
  (List.range p.slotCount.toNat).filter (fun i => decide (0 < (slotAt p i).length))

/-- Offset of the slot at directory index `i`, the sort key of
`SP_CompactPage`'s ordering pass. -/
def keyOf (slots : List SP_SlotEntry) (i : Nat) : Int :=
  ((slots[i]?).getD ⟨0, 0⟩).offset

/-- Inner loop of `SP_CompactPage`'s selection sort: for `j = j₀, …, n-1`,
swap `ord[i]` and `ord[j]` whenever the record at `ord[i]` starts below the
record at `ord[j]`. -/
def sortInner (slots : List SP_SlotEntry) (n : Nat) (ord : List Nat) (i j : Nat) :
    List Nat :=
  if h : j < n then
    sortInner slots n
      (if keyOf slots (ord.getD i 0) < keyOf slots (ord.getD j 0) then
        (ord.set i (ord.getD j 0)).set j (ord.getD i 0)
      else ord)
      i (j + 1)
  else ord
termination_by n - j

/-- Outer loop of `SP_CompactPage`'s selection sort. -/
def sortOuter (slots : List SP_SlotEntry) (n : Nat) (ord : List Nat) (i : Nat) :
    List Nat :=
  if h : i < n then
    sortOuter slots n (sortInner slots n ord i (i + 1)) (i + 1)
  else ord
termination_by n - i

/-- The `order` array of `SP_CompactPage` after both sorting loops: the live
slot ids arranged by record offset, highest first. -/
def sortOrder (slots : List SP_SlotEntry) (ord : List Nat) : List Nat :=
  sortOuter slots ord.length ord 0

/-- Relocation loop of `SP_CompactPage`: walk the ordered live slots, slide
each record up against the previous one (clamping the running free pointer at
the header end, as the C code does), and rewrite its offset. -/
def compactMoves (p : SP_Page) : List Nat → Int → SP_Page × Int
  | [], fp => (p, fp)
  | i :: rest, fp =>
    let slot := slotAt p i
    let fp1 := fp - slot.length
    let fp2 := if fp1 < (headerSize : Int) then (headerSize : Int) else fp1
    let bytes' :=
      if slot.offset ≠ fp2 then
        moveBytes p.bytes fp2.toNat slot.offset.toNat slot.length.toNat
      else p.bytes
    compactMoves
      { p with bytes := bytes', slots := p.slots.set i { slot with offset := fp2 } }
      rest fp2

/-- `SP_CompactPage`: collect the live slots, order them by offset
descending, slide every record to the highest unused address, and store the
resulting free pointer in the header. -/
def SP_CompactPage (p : SP_Page) : SP_Page :=
  let order := sortOrder p.slots (liveIdx p)
  let r := compactMoves p order (PF_PAGE_SIZE : Int)
  { r.1 with freePtr := r.2 }

/-- `SP_EnsureSpace`: compact when the directory–heap gap is too small; the
compacted page persists even when the request still fails. -/
def SP_EnsureSpace (p : SP_Page) (neededBytes : Int) : Int × SP_Page :=
  if neededBytes ≤ SP_PageFreeSpace p then (SP_OK, p)
  else
    let p' := SP_CompactPage p
    if neededBytes ≤ SP_PageFreeSpace p' then (SP_OK, p') else (SP_ERR_NOSPACE, p')

/-- `SP_InsertRecord`: returns the status code, the evolved page buffer, and
the slot id stored through the `slotId` out-parameter (`none` when the call
fails before reaching it).  As in the C code, a failing call can still have
compacted the page, and the record bytes are copied before the slot is
reserved. -/
def SP_InsertRecord (p : SP_Page) (data : List Int) (length : Int) :
    Int × SP_Page × Option Int :=
  let needSlotBytes : Int :=
    if p.freeListHead = SP_INVALID_SLOT then (slotEntrySize : Int) else 0
  let needed := length + needSlotBytes
  if length ≤ 0 then (SP_ERR_NOSPACE, p, none)
  else
    let es := SP_EnsureSpace p needed
    if es.1 ≠ SP_OK then (SP_ERR_NOSPACE, es.2, none)
    else
      let p1 := es.2
      let dest := p1.freePtr - length
      if dest < (headerSize : Int) then (SP_ERR_NOSPACE, p1, none)
      else
        let p2 : SP_Page :=
          { p1 with
            bytes := writeBytes p1.bytes dest.toNat (data.take length.toNat)
            freePtr := dest }
        let rs := SP_ReserveSlot p2
        if rs.1 < 0 then (rs.1, rs.2, none)
        else
          let p3 := rs.2
          let p4 : SP_Page :=
            { p3 with slots := p3.slots.set rs.1.toNat ⟨dest, length⟩ }
          (SP_OK, p4, some rs.1)

/-- `SP_DeleteRecord`: tombstone the slot (`length := -1`) and splice it onto
the free list through the overloaded offset field. -/
def SP_DeleteRecord (p : SP_Page) (slotId : Int) : Int × SP_Page :=
  if slotId < 0 ∨ p.slotCount ≤ slotId then (SP_ERR_INVALID_SLOT, p)
  else
    let slot := slotAt p slotId.toNat
    if slot.length ≤ 0 then (SP_ERR_INVALID_SLOT, p)
    else
      (SP_OK,
        { p with
          slots := p.slots.set slotId.toNat ⟨p.freeListHead, -1⟩
          freeListHead := slotId })

/-- `SP_GetRecord`: status code plus the record bytes and length delivered
through the out-parameters (`none` on failure). -/
def SP_GetRecord (p : SP_Page) (slotId : Int) : Int × Option (List Int × Int) :=
  if slotId < 0 ∨ p.slotCount ≤ slotId then (SP_ERR_INVALID_SLOT, none)
  else
    let slot := slotAt p slotId.toNat
    if slot.length ≤ 0 then (SP_ERR_INVALID_SLOT, none)
    else
      (SP_OK, some (readBytes p.bytes slot.offset.toNat slot.length.toNat, slot.length))

/-- Start index of `SP_GetNextRecord`'s scan for a given cursor value. -/
def cursorStart (cursor : Int) : Nat := if cursor < 0 then 0 else cursor.toNat + 1

/-- The scan loop of `SP_GetNextRecord`: first index `i₀ ≤ i < slotCount`
holding a live slot. -/
def scanFrom (p : SP_Page) (i : Nat) : Option Nat :=
  if h : i < p.slotCount.toNat then
    if 0 < (slotAt p i).length then some i else scanFrom p (i + 1)
  else none
termination_by p.slotCount.toNat - i

/-- `SP_GetNextRecord`: status code, the value left in the cursor variable,
and the record delivered through the out-parameters. -/
def SP_GetNextRecord (p : SP_Page) (cursor : Int) :
    Int × Int × Option (List Int × Int) :=
  match scanFrom p (cursorStart cursor) with
  | some i =>
    (SP_OK, (i : Int),
      some (readBytes p.bytes (slotAt p i).offset.toNat (slotAt p i).length.toNat,
        (slotAt p i).length))
  | none => (SP_ERR_EMPTY, -1, none)

/-- Count of live slots at index `i` or beyond — what a cursor scan starting
at `i` will visit. -/
def countLiveFrom (p : SP_Page) (i : Nat) : Nat :=
  if h : i < p.slotCount.toNat then
    (if 0 < (slotAt p i).length then 1 else 0) + countLiveFrom p (i + 1)
  else 0
termination_by p.slotCount.toNat - i

/-- Inner loop of the loader's `deleteEvery` (a fuel-indexed rendering of the
`while (SP_GetNextRecord(...)==SP_OK)` loop): visit the live records in
cursor order, bump the running counter at each, and tombstone every record at
which the counter is a positive multiple of `step`.  Returns the evolved
page, the counter and the deletion tally. -/
def deleteLoop (step : Int) : Nat → SP_Page → Int → Int → Int → SP_Page × Int × Int
  | 0, p, _, counter, deleted => (p, counter, deleted)
  | Nat.succ fuel, p, cursor, counter, deleted =>
    let r := SP_GetNextRecord p cursor
    if r.1 = SP_OK then
      if 0 < step ∧ (counter + 1) % step = 0 then
        let d := SP_DeleteRecord p r.2.1
        if d.1 = SP_OK then
          deleteLoop step fuel d.2 r.2.1 (counter + 1) (deleted + 1)
        else deleteLoop step fuel p r.2.1 (counter + 1) deleted
      else deleteLoop step fuel p r.2.1 (counter + 1) deleted
    else (p, counter, deleted)

/-- Modelled from the spec: the loader's deletion pass walks the file's pages
in order (`PF_GetFirstPage` / `PF_GetNextPage`, a layer not present in this
tree), running `deleteLoop` on each page with the counter carried across page
boundaries.  The per-page fuel `slotCount + 1` covers every live slot plus
the final failing call. -/
def deleteEveryPages (step : Int) : List SP_Page → Int → Int → List SP_Page × Int × Int
  | [], counter, deleted => ([], counter, deleted)
  | p :: rest, counter, deleted =>
    let r := deleteLoop step (p.slotCount.toNat + 1) p (-1) counter deleted
    let rr := deleteEveryPages step rest r.2.1 r.2.2
    (r.1 :: rr.1, rr.2)

/-- The loader's `deleteEvery`, over the store's pages: the evolved pages and
the number of deleted records. -/
def deleteEvery (step : Int) (pages : List SP_Page) : List SP_Page × Int :=
  let r := deleteEveryPages step pages 0 0
  (r.1, r.2.2)

/-- Inner loop of the loader's `scanCount`: count the live records a cursor
scan visits. -/
def scanLoop : Nat → SP_Page → Int → Int → Int
  | 0, _, _, count => count
  | Nat.succ fuel, p, cursor, count =>
    let r := SP_GetNextRecord p cursor
    if r.1 = SP_OK then scanLoop fuel p r.2.1 (count + 1) else count

/-- Modelled from the spec: the loader's post-deletion scan walks the file's
pages in order and counts the records every page scan visits. -/
def scanCount (pages : List SP_Page) : Int :=
  pages.foldl (fun acc p => scanLoop (p.slotCount.toNat + 1) p (-1) acc) 0

/-- Number of live records held across the store's pages. -/
def totalLive (pages : List SP_Page) : Nat :=
  (pages.map (fun p => countLiveFrom p 0)).sum

/-! ## The student-store loader's line handling -/

/-- The loader's trimming loop: strip trailing newline and carriage-return
bytes (`line[len-1]=='\n' || line[len-1]=='\r'`), and nothing else. -/
def trimTrailingCRLF (line : List Int) : List Int :=
  (line.reverse.dropWhile (fun c => c == 10 || c == 13)).reverse

/-- `isdigit` on a byte. -/
def isDigitB (c : Int) : Bool := 48 ≤ c && c ≤ 57

/-- What the loader does with one input line. -/
inductive LineAction
  | skip
  | abort
  | record (data : List Int) (len : Int)
deriving DecidableEq, Repr

/-- The loader's per-line decision (source lines 387–409): trim trailing
newline bytes, skip empty lines and lines whose first byte is not a digit,
abort on lines at or above the 32760 bound, and pack everything else as
exactly one record of the trimmed bytes. -/
def loaderLineAction (line : List Int) : LineAction :=
  if (trimTrailingCRLF line).length = 0 then .skip
  else if isDigitB ((trimTrailingCRLF line).headD 0) = false then .skip
  else if 32760 ≤ (trimTrailingCRLF line).length then .abort
  else .record (trimTrailingCRLF line) ((trimTrailingCRLF line).length : Int)

/-- Modelled from the spec: a whitespace byte, for the spec's reading of the
loader as trimming "whitespace" from each line. -/
def isWhitespaceB (c : Int) : Bool :=
  c == 32 || c == 9 || c == 10 || c == 13 || c == 11 || c == 12

/-- Modelled from the spec: trimming whitespace from an input line (both
ends), the transformation the spec's "whitespace-trimmed" wording denotes. -/
def trimWhitespace (line : List Int) : List Int :=
  ((line.dropWhile isWhitespaceB).reverse.dropWhile isWhitespaceB).reverse

/-! ## The index-benchmark driver's exit paths -/

/-- Exit code of the index-benchmark driver from the build/query phases on
(source lines 866–912).  Each of the six phases either succeeds (`true`) or
fails (`false`, a nonzero return from `buildIndex` or `runQueries`, both of
which depend on the AM/PF layers and enter here as parameters); a failing
phase jumps to the `cleanup` label, which frees the buffers and falls
through to `return 0` — the same value the all-success path returns. -/
def indexBenchmarkExitCode (postBuild postQuery incBuild incQuery bulkBuild
    bulkQuery : Bool) : Int :=
  if postBuild = false then 0
  else if postQuery = false then 0
  else if incBuild = false then 0
  else if incQuery = false then 0
  else if bulkBuild = false then 0
  else if bulkQuery = false then 0
  else 0

/-! ## Page histories (for the standing invariants) -/

/-- One mutating call of the slotted-page API. -/
inductive SP_Op
  | insert (data : List Int) (length : Int)
  | delete (slotId : Int)

/-- The page buffer left behind by a call, whether or not it succeeded
(`SP_InsertRecord` may compact, and partially fill, the page even when it
reports `SP_ERR_NOSPACE`). -/
def applyOp (p : SP_Page) (op : SP_Op) : SP_Page :=
  match op with
  | .insert d l => (SP_InsertRecord p d l).2.1
  | .delete s => (SP_DeleteRecord p s).2

/-- The page buffer after `SP_InitPage` followed by the given calls. -/
def runOps (ops : List SP_Op) : SP_Page := ops.foldl applyOp SP_InitPage

/-- Driver for the round-trip law (spec §8): insert each `(bytes, length)`
pair in order with `SP_InsertRecord`, collecting the returned slot ids;
`none` as soon as a call fails to return `SP_OK` with a slot id. -/
def insertSeq : SP_Page → List (List Int × Int) → Option (SP_Page × List Int)
  | p, [] => some (p, [])
  | p, dl :: rest =>
    let r := SP_InsertRecord p dl.1 dl.2
    if r.1 = SP_OK then
      r.2.2.bind (fun id =>
        (insertSeq r.2.1 rest).map (fun qi => (qi.1, id :: qi.2)))
    else none

/-! ## The slotted-page invariants (spec §3, invariants 4–5 plus the basic
shape facts they presuppose) -/

/-- Spec §3 invariant 4, first half: a live record lies inside the heap
`[freePtr, PF_PAGE_SIZE)`. -/
def slotInHeap (p : SP_Page) (i : Nat) : Prop :=
  0 < (slotAt p i).length →
    p.freePtr ≤ (slotAt p i).offset ∧
    (slotAt p i).offset + (slotAt p i).length ≤ (PF_PAGE_SIZE : Int)

instance (p : SP_Page) (i : Nat) : Decidable (slotInHeap p i) := by
  unfold slotInHeap; infer_instance

/-- Spec §3 invariant 4, second half: two distinct live records occupy
disjoint byte ranges. -/
def slotsDisjoint (p : SP_Page) (i j : Nat) : Prop :=
  i ≠ j → 0 < (slotAt p i).length → 0 < (slotAt p j).length →
    ((slotAt p i).offset + (slotAt p i).length ≤ (slotAt p j).offset ∨
     (slotAt p j).offset + (slotAt p j).length ≤ (slotAt p i).offset)

instance (p : SP_Page) (i j : Nat) : Decidable (slotsDisjoint p i j) := by
  unfold slotsDisjoint; infer_instance

/-- The slotted-page invariants: well-shaped header and directory, the
directory never crossing the free pointer, every live record lying inside
the heap `[freePtr, PF_PAGE_SIZE)`, and live records pairwise disjoint. -/
def SP_Inv (p : SP_Page) : Prop :=
  p.bytes.length = PF_PAGE_SIZE ∧
  0 ≤ p.slotCount ∧
  p.slots.length = p.slotCount.toNat ∧
  p.slotCount ≤ (SP_MAX_SLOTS : Int) ∧
  (headerSize : Int) + p.slotCount * (slotEntrySize : Int) ≤ p.freePtr ∧
  p.freePtr ≤ (PF_PAGE_SIZE : Int) ∧
  (∀ i < p.slots.length, slotInHeap p i) ∧
  (∀ i < p.slots.length, ∀ j < p.slots.length, slotsDisjoint p i j)

/-- Spec §3 invariant 6, restricted to its head: the tombstone free list is
empty, or its head names a tombstoned directory entry. -/
def SP_FreeHeadOk (p : SP_Page) : Prop :=
  p.freeListHead = SP_INVALID_SLOT ∨
    (0 ≤ p.freeListHead ∧ p.freeListHead.toNat < p.slots.length ∧
      (slotAt p p.freeListHead.toNat).length ≤ 0)

instance (p : SP_Page) : Decidable (SP_Inv p) := by
  unfold SP_Inv; infer_instance

instance (p : SP_Page) : Decidable (SP_FreeHeadOk p) := by
  unfold SP_FreeHeadOk; infer_instance

/-! ## Byte-buffer lemmas -/

theorem readBytes_length {buf : List Int} {off len : Nat} (h : off + len ≤ buf.length) :
    (readBytes buf off len).length = len := by
  simp [readBytes]; omega

theorem readBytes_getElem? (buf : List Int) (off len n : Nat) :
    (readBytes buf off len)[n]? = if n < len then buf[off + n]? else none := by
  simp [readBytes, List.getElem?_take, List.getElem?_drop]

theorem writeBytes_length {buf src : List Int} {off : Nat}
    (h : off + src.length ≤ buf.length) :
    (writeBytes buf off src).length = buf.length := by
  simp [writeBytes]; omega

theorem writeBytes_getElem? {buf src : List Int} {off : Nat}
    (h : off + src.length ≤ buf.length) (n : Nat) :
    (writeBytes buf off src)[n]? =
      if n < off then buf[n]?
      else if n < off + src.length then src[n - off]?
      else buf[n]? := by
  have hoff : off ≤ buf.length := by omega
  unfold writeBytes
  simp only [List.getElem?_append, List.getElem?_take, List.getElem?_drop,
    List.length_append, List.length_take, Nat.min_eq_left hoff]
  split_ifs <;> first
    | rfl
    | omega
    | (congr 1; omega)

theorem readBytes_writeBytes_below {buf src : List Int} {off ro rl : Nat}
    (hlen : off + src.length ≤ buf.length) (h : ro + rl ≤ off) :
    readBytes (writeBytes buf off src) ro rl = readBytes buf ro rl := by
  apply List.ext_getElem?
  intro n
  rw [readBytes_getElem?, readBytes_getElem?]
  split
  · rw [writeBytes_getElem? hlen]
    have : ro + n < off := by omega
    simp [this]
  · rfl

theorem readBytes_writeBytes_above {buf src : List Int} {off ro rl : Nat}
    (hlen : off + src.length ≤ buf.length) (h : off + src.length ≤ ro) :
    readBytes (writeBytes buf off src) ro rl = readBytes buf ro rl := by
  apply List.ext_getElem?
  intro n
  rw [readBytes_getElem?, readBytes_getElem?]
  split
  · rw [writeBytes_getElem? hlen]
    have h1 : ¬ ro + n < off := by omega
    have h2 : ¬ ro + n < off + src.length := by omega
    simp [h1, h2]
  · rfl

theorem readBytes_writeBytes_self {buf src : List Int} {off : Nat}
    (hlen : off + src.length ≤ buf.length) :
    readBytes (writeBytes buf off src) off src.length = src := by
  apply List.ext_getElem?
  intro n
  rw [readBytes_getElem?]
  split
  · rw [writeBytes_getElem? hlen]
    have h1 : ¬ off + n < off := by omega
    have h2 : off + n < off + src.length := by omega
    simp [h1, h2]
  · exact (List.getElem?_eq_none (by omega)).symm

/-! ## Correctness of the selection sort in `SP_CompactPage` -/

theorem getD_cons_set_perm {α : Type} (d x : α) :
    ∀ (t : List α) (m : Nat), m < t.length → List.Perm (t.getD m d :: t.set m x) (x :: t)
  | y :: s, 0, _ => by simpa using List.Perm.swap x y s
  | y :: s, m + 1, h => by
    have ih := getD_cons_set_perm d x s m (by simpa using h)
    have h1 : List.Perm (s.getD m d :: y :: s.set m x) (y :: s.getD m d :: s.set m x) :=
      List.Perm.swap _ _ _
    have h3 : List.Perm (y :: x :: s) (x :: y :: s) := List.Perm.swap _ _ _
    exact (h1.trans (ih.cons y)).trans h3

theorem set_swap_perm {α : Type} (d : α) :
    ∀ (l : List α) (i j : Nat), i < l.length → j < l.length →
      List.Perm ((l.set i (l.getD j d)).set j (l.getD i d)) l
  | [], i, _, hi, _ => absurd hi (by simp)
  | x :: t, 0, 0, _, _ => by simp
  | x :: t, 0, m + 1, _, hj => by
    simpa using getD_cons_set_perm d x t m (by simpa using hj)
  | x :: t, k + 1, 0, hk, _ => by
    simpa using getD_cons_set_perm d x t k (by simpa using hk)
  | x :: t, k + 1, m + 1, hk, hm => by
    simpa using (set_swap_perm d t k m (by simpa using hk) (by simpa using hm)).cons x

theorem take_eq_take_of_getD_eq {α : Type} (d : α) {l l' : List α} {k : Nat}
    (hlen : l'.length = l.length) (h : ∀ p < k, l'.getD p d = l.getD p d) :
    l'.take k = l.take k := by
  apply List.ext_getElem?
  intro n
  rw [List.getElem?_take, List.getElem?_take]
  split
  · next hn =>
    rcases Nat.lt_or_ge n l.length with hl | hl
    · have e := h n hn
      simp only [List.getD_eq_getElem?_getD] at e
      rw [List.getElem?_eq_getElem (show n < l'.length by omega),
        List.getElem?_eq_getElem hl] at e ⊢
      simpa using e
    · rw [List.getElem?_eq_none (by omega), List.getElem?_eq_none (by omega)]
  · rfl

theorem perm_drop_of_eq_below {α : Type} (d : α) {l l' : List α} {k : Nat}
    (hperm : List.Perm l' l) (hlen : l'.length = l.length)
    (h : ∀ p < k, l'.getD p d = l.getD p d) :
    List.Perm (l'.drop k) (l.drop k) := by
  have ht : l'.take k = l.take k := take_eq_take_of_getD_eq d hlen h
  have h1 : List.Perm (l'.take k ++ l'.drop k) (l.take k ++ l.drop k) := by
    rw [List.take_append_drop, List.take_append_drop]; exact hperm
  rw [ht] at h1
  exact (List.perm_append_left_iff _).mp h1

theorem getD_drop {α : Type} (d : α) (l : List α) (k m : Nat) :
    (l.drop k).getD m d = l.getD (k + m) d := by
  simp [List.getD_eq_getElem?_getD, List.getElem?_drop]

theorem exists_src_ge_of_drop_perm {α : Type} (d : α) {l l' : List α} {k q : Nat}
    (hperm : List.Perm (l'.drop k) (l.drop k)) (hq1 : k ≤ q) (hq2 : q < l'.length) :
    ∃ r, k ≤ r ∧ r < l.length ∧ l.getD r d = l'.getD q d := by
  have hmem : l'.getD q d ∈ l'.drop k := by
    have hlt : q - k < (l'.drop k).length := by simp [List.length_drop]; omega
    have : (l'.drop k)[q - k] = (l'.drop k).getD (q - k) d := by
      rw [List.getD_eq_getElem?_getD, List.getElem?_eq_getElem hlt]; rfl
    rw [getD_drop] at this
    have hq : k + (q - k) = q := by omega
    rw [hq] at this
    exact this ▸ List.getElem_mem hlt
  have hmem2 : l'.getD q d ∈ l.drop k := hperm.subset hmem
  rcases List.mem_iff_getElem.mp hmem2 with ⟨m, hm, he⟩
  refine ⟨k + m, by omega, ?_, ?_⟩
  · have := List.length_drop k l ▸ hm
    omega
  · rw [List.getD_eq_getElem?_getD, List.getElem?_eq_getElem
      (show k + m < l.length by have := List.length_drop k l ▸ hm; omega)]
    simp only [Option.getD_some]
    rw [List.getElem_drop] at he
    exact he

theorem sortInner_spec (slots : List SP_SlotEntry) (n : Nat) :
    ∀ (fuel : Nat) (ord : List Nat) (i j : Nat), n - j ≤ fuel → ord.length = n → i < j →
      (∀ p, i < p → p < j → keyOf slots (ord.getD p 0) ≤ keyOf slots (ord.getD i 0)) →
      (sortInner slots n ord i j).length = n ∧
      List.Perm (sortInner slots n ord i j) ord ∧
      (∀ p, p ≠ i → p < j → (sortInner slots n ord i j).getD p 0 = ord.getD p 0) ∧
      (∀ p, i < p → p < n →
        keyOf slots ((sortInner slots n ord i j).getD p 0) ≤
          keyOf slots ((sortInner slots n ord i j).getD i 0)) := by
  intro fuel
  induction fuel with
  | zero =>
    intro ord i j hfuel hlen hij hpre
    have hjn : ¬ j < n := by omega
    rw [sortInner, dif_neg hjn]
    refine ⟨hlen, List.Perm.refl _, fun p _ _ => rfl, fun p hip hpn => hpre p hip (by omega)⟩
  | succ f ih =>
    intro ord i j hfuel hlen hij hpre
    by_cases hjn : j < n
    · rw [sortInner, dif_pos hjn]
      by_cases hsw : keyOf slots (ord.getD i 0) < keyOf slots (ord.getD j 0)
      · rw [if_pos hsw]
        have hilen : i < ord.length := by omega
        have hjlen : j < ord.length := by omega
        have hperm : List.Perm ((ord.set i (ord.getD j 0)).set j (ord.getD i 0)) ord :=
          set_swap_perm 0 ord i j hilen hjlen
        have hlen' : ((ord.set i (ord.getD j 0)).set j (ord.getD i 0)).length = n := by
          simpa using hlen
        have hgetj : ((ord.set i (ord.getD j 0)).set j (ord.getD i 0)).getD j 0 =
            ord.getD i 0 := by
          rw [List.getD_eq_getElem?_getD,
            List.getElem?_set_self (show j < (ord.set i (ord.getD j 0)).length by
              simpa using hjlen)]
          rfl
        have hgeti : ((ord.set i (ord.getD j 0)).set j (ord.getD i 0)).getD i 0 =
            ord.getD j 0 := by
          rw [List.getD_eq_getElem?_getD, List.getElem?_set_ne (show j ≠ i by omega),
            List.getElem?_set_self hilen]
          rfl
        have hgetp : ∀ p, p ≠ i → p ≠ j →
            ((ord.set i (ord.getD j 0)).set j (ord.getD i 0)).getD p 0 = ord.getD p 0 := by
          intro p hpi hpj
          rw [List.getD_eq_getElem?_getD, List.getElem?_set_ne (show j ≠ p by omega),
            List.getElem?_set_ne (show i ≠ p by omega), ← List.getD_eq_getElem?_getD]
        have hpre' : ∀ p, i < p → p < j + 1 →
            keyOf slots (((ord.set i (ord.getD j 0)).set j (ord.getD i 0)).getD p 0) ≤
              keyOf slots (((ord.set i (ord.getD j 0)).set j (ord.getD i 0)).getD i 0) := by
          intro p hip hpj1
          rw [hgeti]
          by_cases hpj : p = j
          · subst hpj; rw [hgetj]; omega
          · rw [hgetp p (by omega) hpj]
            have := hpre p hip (by omega)
            omega
        obtain ⟨c1, c2, c3, c4⟩ := ih _ i (j + 1) (by omega) hlen' (by omega) hpre'
        refine ⟨c1, c2.trans hperm, ?_, c4⟩
        intro p hpi hpj
        rw [c3 p hpi (by omega), hgetp p hpi (by omega)]
      · rw [if_neg hsw]
        have hpre' : ∀ p, i < p → p < j + 1 →
            keyOf slots (ord.getD p 0) ≤ keyOf slots (ord.getD i 0) := by
          intro p hip hpj1
          by_cases hpj : p = j
          · subst hpj; omega
          · exact hpre p hip (by omega)
        obtain ⟨c1, c2, c3, c4⟩ := ih ord i (j + 1) (by omega) hlen (by omega) hpre'
        exact ⟨c1, c2, fun p hpi hpj => c3 p hpi (by omega), c4⟩
    · rw [sortInner, dif_neg hjn]
      refine ⟨hlen, List.Perm.refl _, fun p _ _ => rfl, fun p hip hpn => hpre p hip (by omega)⟩

theorem sortOuter_spec (slots : List SP_SlotEntry) (n : Nat) :
    ∀ (fuel : Nat) (ord : List Nat) (i : Nat), n - i ≤ fuel → ord.length = n →
      (∀ p q, p < q → q < i → keyOf slots (ord.getD q 0) ≤ keyOf slots (ord.getD p 0)) →
      (∀ p q, p < i → i ≤ q → q < n → keyOf slots (ord.getD q 0) ≤ keyOf slots (ord.getD p 0)) →
      (sortOuter slots n ord i).length = n ∧
      List.Perm (sortOuter slots n ord i) ord ∧
      (∀ p q, p < q → q < n →
        keyOf slots ((sortOuter slots n ord i).getD q 0) ≤
          keyOf slots ((sortOuter slots n ord i).getD p 0)) := by
  intro fuel
  induction fuel with
  | zero =>
    intro ord i hfuel hlen ha hb
    have hin : ¬ i < n := by omega
    rw [sortOuter, dif_neg hin]
    exact ⟨hlen, List.Perm.refl _, fun p q hpq hqn => ha p q hpq (by omega)⟩
  | succ f ih =>
    intro ord i hfuel hlen ha hb
    by_cases hin : i < n
    · rw [sortOuter, dif_pos hin]
      obtain ⟨c1, c2, c3, c4⟩ :=
        sortInner_spec slots n (n - (i + 1)) ord i (i + 1) (by omega) hlen (by omega)
          (fun p hip hpj => by omega)
      set ord₁ := sortInner slots n ord i (i + 1) with hord₁
      have hstable : ∀ p, p < i → ord₁.getD p 0 = ord.getD p 0 := by
        intro p hp
        exact c3 p (by omega) (by omega)
      have hdropperm : List.Perm (ord₁.drop i) (ord.drop i) :=
        perm_drop_of_eq_below 0 c2 (by omega) hstable
      have hsrc : ∀ q, i ≤ q → q < n →
          ∃ r, i ≤ r ∧ r < n ∧ ord.getD r 0 = ord₁.getD q 0 := by
        intro q hiq hqn
        obtain ⟨r, hr1, hr2, hr3⟩ :=
          exists_src_ge_of_drop_perm 0 hdropperm hiq (by omega)
        exact ⟨r, hr1, by omega, hr3⟩
      have ha' : ∀ p q, p < q → q < i + 1 →
          keyOf slots (ord₁.getD q 0) ≤ keyOf slots (ord₁.getD p 0) := by
        intro p q hpq hqi1
        by_cases hqi : q = i
        · rw [hqi, hstable p (by omega)]
          obtain ⟨r, hr1, hr2, hr3⟩ := hsrc i (by omega) hin
          rw [← hr3]
          exact hb p r (by omega) hr1 hr2
        · rw [hstable p (by omega), hstable q (by omega)]
          exact ha p q hpq (by omega)
      have hb' : ∀ p q, p < i + 1 → i + 1 ≤ q → q < n →
          keyOf slots (ord₁.getD q 0) ≤ keyOf slots (ord₁.getD p 0) := by
        intro p q hpi1 hq1 hqn
        by_cases hpi : p = i
        · subst hpi
          exact c4 q (by omega) hqn
        · rw [hstable p (by omega)]
          obtain ⟨r, hr1, hr2, hr3⟩ := hsrc q (by omega) hqn
          rw [← hr3]
          exact hb p r (by omega) hr1 hr2
      obtain ⟨d1, d2, d3⟩ := ih ord₁ (i + 1) (by omega) c1 ha' hb'
      exact ⟨d1, d2.trans c2, d3⟩
    · rw [sortOuter, dif_neg hin]
      exact ⟨hlen, List.Perm.refl _, fun p q hpq hqn => ha p q hpq (by omega)⟩

theorem sortOrder_length (slots : List SP_SlotEntry) (ord : List Nat) :
    (sortOrder slots ord).length = ord.length :=
  (sortOuter_spec slots ord.length ord.length ord 0 (by omega) rfl
    (fun p q hpq hq => by omega) (fun p q hp hq hqn => by omega)).1

theorem sortOrder_perm (slots : List SP_SlotEntry) (ord : List Nat) :
    List.Perm (sortOrder slots ord) ord :=
  (sortOuter_spec slots ord.length ord.length ord 0 (by omega) rfl
    (fun p q hpq hq => by omega) (fun p q hp hq hqn => by omega)).2.1

theorem sortOrder_sorted (slots : List SP_SlotEntry) (ord : List Nat) :
    ∀ p q, p < q → q < ord.length →
      keyOf slots ((sortOrder slots ord).getD q 0) ≤
        keyOf slots ((sortOrder slots ord).getD p 0) :=
  (sortOuter_spec slots ord.length ord.length ord 0 (by omega) rfl
    (fun p q hpq hq => by omega) (fun p q hp hq hqn => by omega)).2.2

/-! ## Specification of the relocation loop of `SP_CompactPage` -/

/-- Sum of the record lengths of the slots named by `order`. -/
def sumLens (p : SP_Page) (order : List Nat) : Int :=
  (order.map (fun i => (slotAt p i).length)).sum

theorem sumLens_nil (p : SP_Page) : sumLens p [] = 0 := rfl

theorem sumLens_cons (p : SP_Page) (i : Nat) (rest : List Nat) :
    sumLens p (i :: rest) = (slotAt p i).length + sumLens p rest := by
  simp [sumLens]

theorem sumLens_nonneg {p : SP_Page} {order : List Nat}
    (h : ∀ i ∈ order, 0 < (slotAt p i).length) : 0 ≤ sumLens p order := by
  induction order with
  | nil => simp [sumLens]
  | cons i rest ih =>
    rw [sumLens_cons]
    have h1 := h i (List.mem_cons_self i rest)
    have h2 := ih (fun j hj => h j (List.mem_cons_of_mem i hj))
    omega

theorem sumLens_congr {p p' : SP_Page} {order : List Nat}
    (h : ∀ i ∈ order, slotAt p' i = slotAt p i) : sumLens p' order = sumLens p order := by
  unfold sumLens
  congr 1
  exact List.map_congr_left (fun i hi => by rw [h i hi])

theorem sumLens_take_le {p : SP_Page} {order : List Nat}
    (h : ∀ i ∈ order, 0 < (slotAt p i).length) (m : Nat) :
    sumLens p (order.take m) ≤ sumLens p order := by
  conv_rhs => rw [← List.take_append_drop m order]
  unfold sumLens
  rw [List.map_append, List.sum_append]
  have : 0 ≤ ((order.drop m).map (fun i => (slotAt p i).length)).sum := by
    have := @sumLens_nonneg p (order.drop m)
      (fun i hi => h i (List.mem_of_mem_drop hi))
    simpa [sumLens] using this
  omega

theorem slotAt_of_getElem? {p : SP_Page} {i : Nat} {s : SP_SlotEntry}
    (h : p.slots[i]? = some s) : slotAt p i = s := by
  simp [slotAt, h]

/-- What one run of the relocation loop produces: header fields untouched,
the returned free pointer one record-sum below the starting one, slots
outside `order` untouched, bytes outside the rewritten band untouched, and
every slot of `order` re-addressed to its packed position with its record
bytes carried along. -/
structure MovesOut (p : SP_Page) (order : List Nat) (fp : Int) : Prop where
  sc : (compactMoves p order fp).1.slotCount = p.slotCount
  fl : (compactMoves p order fp).1.freeListHead = p.freeListHead
  al : (compactMoves p order fp).1.attrLength = p.attrLength
  fpf : (compactMoves p order fp).1.freePtr = p.freePtr
  blen : (compactMoves p order fp).1.bytes.length = p.bytes.length
  slen : (compactMoves p order fp).1.slots.length = p.slots.length
  fpout : (compactMoves p order fp).2 = fp - sumLens p order
  untouched : ∀ j, j ∉ order → (compactMoves p order fp).1.slots[j]? = p.slots[j]?
  frame : ∀ ro rl : Nat, ((ro : Int) + (rl : Int) ≤ fp - sumLens p order ∨ fp ≤ (ro : Int)) →
    readBytes (compactMoves p order fp).1.bytes ro rl = readBytes p.bytes ro rl
  placed : ∀ k i, order[k]? = some i →
    ∃ s, p.slots[i]? = some s ∧
      (compactMoves p order fp).1.slots[i]? =
        some ⟨fp - sumLens p (order.take (k + 1)), s.length⟩ ∧
      readBytes (compactMoves p order fp).1.bytes
          (fp - sumLens p (order.take (k + 1))).toNat s.length.toNat =
        readBytes p.bytes s.offset.toNat s.length.toNat

theorem compactMoves_spec :
    ∀ (order : List Nat) (p : SP_Page) (fp : Int),
      order.Nodup →
      (∀ i ∈ order, ∃ s, p.slots[i]? = some s ∧ 0 < s.length) →
      order.Pairwise (fun a b =>
        (slotAt p b).offset + (slotAt p b).length ≤ (slotAt p a).offset) →
      (∀ i ∈ order, (headerSize : Int) ≤ (slotAt p i).offset ∧
        (slotAt p i).offset + (slotAt p i).length ≤ fp) →
      fp ≤ (p.bytes.length : Int) →
      MovesOut p order fp
  | [], p, fp, _, _, _, _, _ => by
    refine ⟨rfl, rfl, rfl, rfl, rfl, rfl, by simp [compactMoves, sumLens],
      fun j _ => rfl, fun ro rl _ => rfl, fun k i hk => absurd hk (by simp)⟩
  | i :: rest, p, fp, hnd, hmem, hpair, hbound, hfp => by
    obtain ⟨hnotmem, hnd'⟩ := List.nodup_cons.mp hnd
    obtain ⟨s, hs, hslen⟩ := hmem i (List.mem_cons_self i rest)
    have hsa : slotAt p i = s := slotAt_of_getElem? hs
    obtain ⟨hoff8, hofffp⟩ := hbound i (List.mem_cons_self i rest)
    rw [hsa] at hoff8 hofffp
    have hrel : ∀ j ∈ rest,
        (slotAt p j).offset + (slotAt p j).length ≤ (slotAt p i).offset :=
      (List.pairwise_cons.mp hpair).1
    have hpair' := (List.pairwise_cons.mp hpair).2
    -- the clamp in the loop never fires
    have h8 : ¬ fp - s.length < (headerSize : Int) := by omega
    have step : compactMoves p (i :: rest) fp =
        compactMoves
          { p with
            bytes :=
              if s.offset ≠ fp - s.length then
                moveBytes p.bytes (fp - s.length).toNat s.offset.toNat s.length.toNat
              else p.bytes,
            slots := p.slots.set i { s with offset := fp - s.length } }
          rest (fp - s.length) := by
      simp only [compactMoves]
      rw [hsa, if_neg h8]
    set fp1 := fp - s.length with hfp1
    set bytes' :=
      if s.offset ≠ fp1 then
        moveBytes p.bytes fp1.toNat s.offset.toNat s.length.toNat
      else p.bytes with hbytes'
    set p' : SP_Page :=
      { p with bytes := bytes', slots := p.slots.set i { s with offset := fp1 } }
      with hp'
    -- byte-level facts about the single move
    have hreadlen : (readBytes p.bytes s.offset.toNat s.length.toNat).length
        = s.length.toNat := by
      apply readBytes_length
      omega
    have hblen' : bytes'.length = p.bytes.length := by
      rw [hbytes']
      split
      · rw [moveBytes, writeBytes_length]
        rw [hreadlen]
        omega
      · rfl
    have hcontent : readBytes bytes' fp1.toNat s.length.toNat =
        readBytes p.bytes s.offset.toNat s.length.toNat := by
      rw [hbytes']
      split
      · rw [moveBytes]
        have := @readBytes_writeBytes_self
          p.bytes (readBytes p.bytes s.offset.toNat s.length.toNat)
          fp1.toNat (by rw [hreadlen]; omega)
        rw [hreadlen] at this
        exact this
      · next hne =>
        have : s.offset = fp1 := by omega
        rw [this]
    have hframe1 : ∀ ro rl : Nat, ((ro : Int) + (rl : Int) ≤ fp1 ∨ fp ≤ (ro : Int)) →
        readBytes bytes' ro rl = readBytes p.bytes ro rl := by
      intro ro rl hcase
      rw [hbytes']
      split
      · rw [moveBytes]
        rcases hcase with hc | hc
        · exact readBytes_writeBytes_below (by rw [hreadlen]; omega) (by omega)
        · exact readBytes_writeBytes_above (by rw [hreadlen]; omega) (by rw [hreadlen]; omega)
      · rfl
    -- directory facts about p'
    have hslots' : ∀ j, j ≠ i → p'.slots[j]? = p.slots[j]? := by
      intro j hj
      rw [hp']
      exact List.getElem?_set_ne (fun h => hj h.symm)
    have hslotAt' : ∀ j, j ≠ i → slotAt p' j = slotAt p j := by
      intro j hj
      simp [slotAt, hslots' j hj]
    have hilen : i < p.slots.length := (List.getElem?_eq_some_iff.mp hs).1
    have hslotsi : p'.slots[i]? = some ⟨fp1, s.length⟩ := by
      rw [hp']
      have hset : (p.slots.set i { s with offset := fp1 })[i]? =
          some { s with offset := fp1 } :=
        List.getElem?_set_self (show i < p.slots.length from hilen)
      simpa using hset
    -- hypotheses of the induction for the tail
    have hmem' : ∀ j ∈ rest, ∃ t, p'.slots[j]? = some t ∧ 0 < t.length := by
      intro j hj
      obtain ⟨t, ht, htl⟩ := hmem j (List.mem_cons_of_mem i hj)
      exact ⟨t, by rw [hslots' j (fun h => hnotmem (h ▸ hj))]; exact ht, htl⟩
    have hpair'' : rest.Pairwise (fun a b =>
        (slotAt p' b).offset + (slotAt p' b).length ≤ (slotAt p' a).offset) := by
      apply List.Pairwise.imp_of_mem ?_ hpair'
      intro a b ha hb hab
      rw [hslotAt' a (fun h => hnotmem (h ▸ ha)),
        hslotAt' b (fun h => hnotmem (h ▸ hb))]
      exact hab
    have hbound' : ∀ j ∈ rest, (headerSize : Int) ≤ (slotAt p' j).offset ∧
        (slotAt p' j).offset + (slotAt p' j).length ≤ fp1 := by
      intro j hj
      rw [hslotAt' j (fun h => hnotmem (h ▸ hj))]
      refine ⟨(hbound j (List.mem_cons_of_mem i hj)).1, ?_⟩
      have h1 := hrel j hj
      rw [hsa] at h1
      omega
    have hfp' : fp1 ≤ (p'.bytes.length : Int) := by
      have : p'.bytes.length = p.bytes.length := hblen'
      rw [this]
      omega
    have ih := compactMoves_spec rest p' fp1 hnd' hmem' hpair'' hbound' hfp'
    -- sums over the tail agree between p and p'
    have hsums : ∀ sub : List Nat, (∀ j ∈ sub, j ∈ rest) →
        sumLens p' sub = sumLens p sub := by
      intro sub hsub
      exact sumLens_congr (fun j hj => hslotAt' j (fun h => hnotmem (h ▸ hsub j hj)))
    have hsumrest : sumLens p' rest = sumLens p rest := hsums rest (fun _ h => h)
    have hsumcons : sumLens p (i :: rest) = s.length + sumLens p rest := by
      rw [sumLens_cons, hsa]
    have hrestpos : ∀ j ∈ rest, 0 < (slotAt p j).length := by
      intro j hj
      obtain ⟨t, ht, htl⟩ := hmem j (List.mem_cons_of_mem i hj)
      rw [slotAt_of_getElem? ht]
      exact htl
    have hsumrest_nonneg : 0 ≤ sumLens p rest := sumLens_nonneg hrestpos
    refine ⟨?_, ?_, ?_, ?_, ?_, ?_, ?_, ?_, ?_, ?_⟩
    · rw [step, ih.sc]
    · rw [step, ih.fl]
    · rw [step, ih.al]
    · rw [step, ih.fpf]
    · rw [step, ih.blen]; exact hblen'
    · rw [step, ih.slen, hp']; simp
    · rw [step, ih.fpout, hsumrest, hsumcons]; omega
    · intro j hj
      have hji : j ≠ i := fun h => hj (h ▸ List.mem_cons_self i rest)
      have hjr : j ∉ rest := fun h => hj (List.mem_cons_of_mem i h)
      rw [step, ih.untouched j hjr]
      exact hslots' j hji
    · intro ro rl hcase
      rw [hsumcons] at hcase
      have hcase' : (ro : Int) + (rl : Int) ≤ fp1 - sumLens p' rest ∨ fp1 ≤ (ro : Int) := by
        rw [hsumrest]
        omega
      rw [step, ih.frame ro rl hcase']
      apply hframe1
      rcases hcase with hc | hc
      · left; omega
      · right; omega
    · intro k j hk
      rw [step]
      match k, hk with
      | 0, hk =>
        have hji : i = j := by simpa using hk
        subst hji
        have htake : (i :: rest).take 1 = [i] := by simp
        have hsum1 : sumLens p ((i :: rest).take 1) = s.length := by
          rw [htake]
          simp [sumLens, hsa]
        refine ⟨s, hs, ?_, ?_⟩
        · rw [hsum1]
          rw [ih.untouched i hnotmem]
          exact hslotsi
        · rw [hsum1]
          calc readBytes (compactMoves p' rest fp1).1.bytes (fp - s.length).toNat
                s.length.toNat
              = readBytes bytes' (fp - s.length).toNat s.length.toNat := by
                have he : (fp - s.length).toNat = fp1.toNat := by rw [hfp1]
                rw [he]
                exact ih.frame fp1.toNat s.length.toNat (by right; omega)
            _ = readBytes p.bytes s.offset.toNat s.length.toNat := by
                have he : (fp - s.length).toNat = fp1.toNat := by rw [hfp1]
                rw [he]
                exact hcontent
      | k + 1, hk =>
        have hkrest : rest[k]? = some j := by simpa using hk
        obtain ⟨t, ht, hplaced, hcont⟩ := ih.placed k j hkrest
        have hjrest : j ∈ rest := by
          have := List.getElem?_eq_some_iff.mp hkrest
          obtain ⟨hlt, hget⟩ := this
          exact hget ▸ List.getElem_mem hlt
        have hji : j ≠ i := fun h => hnotmem (h ▸ hjrest)
        have htp : p.slots[j]? = some t := by rw [← hslots' j hji]; exact ht
        have htsub : ∀ m : Nat, sumLens p' (rest.take m) = sumLens p (rest.take m) :=
          fun m => hsums (rest.take m) (fun x hx => List.mem_of_mem_take hx)
        have htake2 : (i :: rest).take (k + 1 + 1) = i :: rest.take (k + 1) := by simp
        have hsumtake : sumLens p ((i :: rest).take (k + 1 + 1)) =
            s.length + sumLens p (rest.take (k + 1)) := by
          rw [htake2, sumLens_cons, hsa]
        have harith : fp1 - sumLens p' (rest.take (k + 1)) =
            fp - sumLens p ((i :: rest).take (k + 1 + 1)) := by
          rw [htsub, hsumtake]
          omega
        refine ⟨t, htp, ?_, ?_⟩
        · rw [← harith]
          exact hplaced
        · rw [← harith, hcont]
          -- old record bytes of j sat below the band written by the head move
          have hta : slotAt p j = t := slotAt_of_getElem? htp
          have hjb := hrel j hjrest
          rw [hsa, hta] at hjb
          have h0 := (hbound j (List.mem_cons_of_mem i hjrest)).1
          rw [hta] at h0
          have htlen : 0 < t.length := by
            obtain ⟨t2, ht2, htl2⟩ := hmem j (List.mem_cons_of_mem i hjrest)
            rw [htp] at ht2
            cases ht2
            exact htl2
          apply hframe1
          left
          omega
  termination_by order => order.length

/-! ## Specification of `SP_CompactPage` on invariant pages -/

theorem set_eq_self_of_getElem? {α : Type} {l : List α} {i : Nat} {a : α}
    (h : l[i]? = some a) : l.set i a = l := by
  apply List.ext_getElem?
  intro j
  by_cases hij : i = j
  · subst hij
    rw [List.getElem?_set_self (List.getElem?_eq_some_iff.mp h).1, h]
  · exact List.getElem?_set_ne hij

theorem mem_liveIdx {p : SP_Page} {i : Nat} :
    i ∈ liveIdx p ↔ i < p.slotCount.toNat ∧ 0 < (slotAt p i).length := by
  simp [liveIdx, List.mem_filter, List.mem_range]

theorem liveIdx_nodup (p : SP_Page) : (liveIdx p).Nodup :=
  (List.nodup_range _).filter _

theorem order_nodup (p : SP_Page) : (sortOrder p.slots (liveIdx p)).Nodup :=
  (sortOrder_perm p.slots (liveIdx p)).nodup_iff.mpr (liveIdx_nodup p)

theorem order_mem (p : SP_Page) (i : Nat) :
    i ∈ sortOrder p.slots (liveIdx p) ↔ i ∈ liveIdx p :=
  (sortOrder_perm p.slots (liveIdx p)).mem_iff

theorem keyOf_eq_offset (p : SP_Page) (i : Nat) :
    keyOf p.slots i = (slotAt p i).offset := rfl

theorem order_live {p : SP_Page} (hInv : SP_Inv p) :
    ∀ i ∈ sortOrder p.slots (liveIdx p), ∃ s, p.slots[i]? = some s ∧ 0 < s.length := by
  intro i hi
  rw [order_mem, mem_liveIdx] at hi
  obtain ⟨hilt, hilive⟩ := hi
  have hlen : i < p.slots.length := by
    rw [hInv.2.2.1]
    exact hilt
  refine ⟨p.slots[i], List.getElem?_eq_getElem hlen, ?_⟩
  have : slotAt p i = p.slots[i] := by
    simp [slotAt, List.getElem?_eq_getElem hlen]
  rw [this] at hilive
  exact hilive

theorem order_bound {p : SP_Page} (hInv : SP_Inv p) :
    ∀ i ∈ sortOrder p.slots (liveIdx p), (headerSize : Int) ≤ (slotAt p i).offset ∧
      (slotAt p i).offset + (slotAt p i).length ≤ (PF_PAGE_SIZE : Int) := by
  intro i hi
  rw [order_mem, mem_liveIdx] at hi
  obtain ⟨hilt, hilive⟩ := hi
  obtain ⟨_, hc0, hcl, _, hdir, _, hheap, _⟩ := hInv
  have hlen : i < p.slots.length := by rw [hcl]; exact hilt
  obtain ⟨ho1, ho2⟩ := hheap i hlen hilive
  constructor
  · have : (0 : Int) ≤ p.slotCount * (slotEntrySize : Int) := by positivity
    omega
  · exact ho2

theorem order_pairwise {p : SP_Page} (hInv : SP_Inv p) :
    (sortOrder p.slots (liveIdx p)).Pairwise (fun a b =>
      (slotAt p b).offset + (slotAt p b).length ≤ (slotAt p a).offset) := by
  rw [List.pairwise_iff_getElem]
  intro k k' hk hk' hkk'
  have holen := sortOrder_length p.slots (liveIdx p)
  have hsorted := sortOrder_sorted p.slots (liveIdx p) k k' hkk' (by omega)
  have hgd : ∀ m : Nat, (hm : m < (sortOrder p.slots (liveIdx p)).length) →
      (sortOrder p.slots (liveIdx p)).getD m 0 = (sortOrder p.slots (liveIdx p))[m] := by
    intro m hm
    rw [List.getD_eq_getElem?_getD, List.getElem?_eq_getElem hm]
    rfl
  rw [hgd k hk, hgd k' hk'] at hsorted
  rw [keyOf_eq_offset, keyOf_eq_offset] at hsorted
  -- distinct slots, both live, hence disjoint; sortedness rules one side out
  have hne : (sortOrder p.slots (liveIdx p))[k] ≠ (sortOrder p.slots (liveIdx p))[k'] := by
    intro he
    have := (List.Nodup.getElem_inj_iff (order_nodup p)).mp he
    omega
  have hmema : (sortOrder p.slots (liveIdx p))[k] ∈ sortOrder p.slots (liveIdx p) :=
    List.getElem_mem hk
  have hmemb : (sortOrder p.slots (liveIdx p))[k'] ∈ sortOrder p.slots (liveIdx p) :=
    List.getElem_mem hk'
  rw [order_mem, mem_liveIdx] at hmema hmemb
  obtain ⟨_, hc0, hcl, _, _, _, _, hdisj⟩ := hInv
  have hlena : (sortOrder p.slots (liveIdx p))[k] < p.slots.length := by
    rw [hcl]; exact hmema.1
  have hlenb : (sortOrder p.slots (liveIdx p))[k'] < p.slots.length := by
    rw [hcl]; exact hmemb.1
  have hd := hdisj ((sortOrder p.slots (liveIdx p))[k]) hlena
    ((sortOrder p.slots (liveIdx p))[k']) hlenb hne hmema.2 hmemb.2
  rcases hd with hd | hd
  · exfalso
    have := hmema.2
    omega
  · exact hd

theorem sumLens_bound :
    ∀ (order : List Nat) (p : SP_Page) (fp low : Int),
      order.Pairwise (fun a b =>
        (slotAt p b).offset + (slotAt p b).length ≤ (slotAt p a).offset) →
      (∀ i ∈ order, low ≤ (slotAt p i).offset ∧
        (slotAt p i).offset + (slotAt p i).length ≤ fp) →
      low ≤ fp →
      sumLens p order ≤ fp - low
  | [], p, fp, low, _, _, hlf => by
    rw [sumLens_nil]; omega
  | i :: rest, p, fp, low, hpair, hbound, hlf => by
    obtain ⟨hrel, hpair'⟩ := List.pairwise_cons.mp hpair
    obtain ⟨hlo, hhi⟩ := hbound i (List.mem_cons_self i rest)
    have hbound' : ∀ j ∈ rest, low ≤ (slotAt p j).offset ∧
        (slotAt p j).offset + (slotAt p j).length ≤ (slotAt p i).offset := by
      intro j hj
      exact ⟨(hbound j (List.mem_cons_of_mem i hj)).1, hrel j hj⟩
    have ih := sumLens_bound rest p ((slotAt p i).offset) low hpair' hbound' hlo
    rw [sumLens_cons]
    omega

theorem sumLens_append (p : SP_Page) (a b : List Nat) :
    sumLens p (a ++ b) = sumLens p a + sumLens p b := by
  simp [sumLens]

theorem sumLens_take_succ {p : SP_Page} {l : List Nat} {k : Nat} {i : Nat}
    (h : l[k]? = some i) :
    sumLens p (l.take (k + 1)) = sumLens p (l.take k) + (slotAt p i).length := by
  rw [List.take_succ, h]
  simp [sumLens_append, sumLens]

theorem sumLens_take_mono {p : SP_Page} {l : List Nat}
    (hpos : ∀ i ∈ l, 0 < (slotAt p i).length) {m m' : Nat} (h : m ≤ m') :
    sumLens p (l.take m) ≤ sumLens p (l.take m') := by
  have he : l.take m = (l.take m').take m := by
    rw [List.take_take, Nat.min_eq_left h]
  rw [he]
  exact sumLens_take_le (fun i hi => hpos i (List.mem_of_mem_take hi)) m

/-- What `SP_CompactPage` produces on an invariant page: header and
directory shape preserved, free pointer moved up to exactly fit the live
records, tombstones untouched, every live record repacked against the page
end with its content intact, and the invariants re-established. -/
structure CompactOut (p : SP_Page) : Prop where
  sc : (SP_CompactPage p).slotCount = p.slotCount
  fl : (SP_CompactPage p).freeListHead = p.freeListHead
  al : (SP_CompactPage p).attrLength = p.attrLength
  slen : (SP_CompactPage p).slots.length = p.slots.length
  blen : (SP_CompactPage p).bytes.length = p.bytes.length
  fptr : (SP_CompactPage p).freePtr = (PF_PAGE_SIZE : Int) - sumLens p (liveIdx p)
  fplo : p.freePtr ≤ (SP_CompactPage p).freePtr
  dead : ∀ j, j ∉ liveIdx p → (SP_CompactPage p).slots[j]? = p.slots[j]?
  live : ∀ i ∈ liveIdx p, ∃ s off, p.slots[i]? = some s ∧
    (SP_CompactPage p).slots[i]? = some ⟨off, s.length⟩ ∧
    (SP_CompactPage p).freePtr ≤ off ∧ off + s.length ≤ (PF_PAGE_SIZE : Int) ∧
    readBytes (SP_CompactPage p).bytes off.toNat s.length.toNat =
      readBytes p.bytes s.offset.toNat s.length.toNat
  placed : ∀ k i, (sortOrder p.slots (liveIdx p))[k]? = some i →
    ∃ s, p.slots[i]? = some s ∧
      (SP_CompactPage p).slots[i]? = some
        (SP_SlotEntry.mk
          ((PF_PAGE_SIZE : Int) - sumLens p ((sortOrder p.slots (liveIdx p)).take (k + 1)))
          s.length)
  lenpres : ∀ i : Nat, (slotAt (SP_CompactPage p) i).length = (slotAt p i).length
  inv : SP_Inv (SP_CompactPage p)

theorem SP_CompactPage_spec (p : SP_Page) (hInv : SP_Inv p) : CompactOut p := by
  have hnd := order_nodup p
  have hmem := order_live hInv
  have hpairw := order_pairwise hInv
  have hbound4096 := order_bound hInv
  obtain ⟨hb, hc0, hcl, hcmax, hdir, hfple, hheap, hdisj⟩ := hInv
  have hfp : (PF_PAGE_SIZE : Int) ≤ (p.bytes.length : Int) := by rw [hb]
  have mo := compactMoves_spec (sortOrder p.slots (liveIdx p)) p (PF_PAGE_SIZE : Int)
    hnd hmem hpairw hbound4096 hfp
  have hq : SP_CompactPage p =
      { (compactMoves p (sortOrder p.slots (liveIdx p)) (PF_PAGE_SIZE : Int)).1 with
        freePtr := (compactMoves p (sortOrder p.slots (liveIdx p)) (PF_PAGE_SIZE : Int)).2 } :=
    rfl
  have hsum : sumLens p (sortOrder p.slots (liveIdx p)) = sumLens p (liveIdx p) :=
    List.Perm.sum_eq ((sortOrder_perm p.slots (liveIdx p)).map _)
  have hordpos : ∀ i ∈ sortOrder p.slots (liveIdx p), 0 < (slotAt p i).length := by
    intro i hi
    obtain ⟨s, hs, hsl⟩ := hmem i hi
    rw [slotAt_of_getElem? hs]
    exact hsl
  have hordheap : ∀ i ∈ sortOrder p.slots (liveIdx p),
      p.freePtr ≤ (slotAt p i).offset ∧
      (slotAt p i).offset + (slotAt p i).length ≤ (PF_PAGE_SIZE : Int) := by
    intro i hi
    rw [order_mem, mem_liveIdx] at hi
    exact hheap i (by rw [hcl]; exact hi.1) hi.2
  have hsumb : sumLens p (liveIdx p) ≤ (PF_PAGE_SIZE : Int) - p.freePtr := by
    rw [← hsum]
    exact sumLens_bound _ p _ p.freePtr hpairw hordheap hfple
  have hlivepos : ∀ i ∈ liveIdx p, 0 < (slotAt p i).length :=
    fun i hi => (mem_liveIdx.mp hi).2
  have hsumpos : 0 ≤ sumLens p (liveIdx p) := sumLens_nonneg hlivepos
  have hfptr : (SP_CompactPage p).freePtr =
      (PF_PAGE_SIZE : Int) - sumLens p (liveIdx p) := by
    rw [hq]
    show (compactMoves p (sortOrder p.slots (liveIdx p)) (PF_PAGE_SIZE : Int)).2 = _
    rw [mo.fpout, hsum]
  have hsc : (SP_CompactPage p).slotCount = p.slotCount := by rw [hq]; exact mo.sc
  have hfl : (SP_CompactPage p).freeListHead = p.freeListHead := by rw [hq]; exact mo.fl
  have hal : (SP_CompactPage p).attrLength = p.attrLength := by rw [hq]; exact mo.al
  have hslen : (SP_CompactPage p).slots.length = p.slots.length := by rw [hq]; exact mo.slen
  have hblen : (SP_CompactPage p).bytes.length = p.bytes.length := by rw [hq]; exact mo.blen
  have hdead : ∀ j, j ∉ liveIdx p → (SP_CompactPage p).slots[j]? = p.slots[j]? := by
    intro j hj
    rw [hq]
    exact mo.untouched j (fun hm => hj ((order_mem p j).mp hm))
  have hplaced : ∀ k i, (sortOrder p.slots (liveIdx p))[k]? = some i →
      ∃ s, p.slots[i]? = some s ∧
        (SP_CompactPage p).slots[i]? = some
          (SP_SlotEntry.mk
            ((PF_PAGE_SIZE : Int) -
              sumLens p ((sortOrder p.slots (liveIdx p)).take (k + 1)))
            s.length) := by
    intro k i hk
    obtain ⟨s, hs, hsl, _⟩ := mo.placed k i hk
    exact ⟨s, hs, by rw [hq]; exact hsl⟩
  have hlive : ∀ i ∈ liveIdx p, ∃ s off, p.slots[i]? = some s ∧
      (SP_CompactPage p).slots[i]? = some ⟨off, s.length⟩ ∧
      (SP_CompactPage p).freePtr ≤ off ∧ off + s.length ≤ (PF_PAGE_SIZE : Int) ∧
      readBytes (SP_CompactPage p).bytes off.toNat s.length.toNat =
        readBytes p.bytes s.offset.toNat s.length.toNat := by
    intro i hi
    have hio : i ∈ sortOrder p.slots (liveIdx p) := (order_mem p i).mpr hi
    obtain ⟨k, hklt, hkeq⟩ := List.getElem_of_mem hio
    have hk : (sortOrder p.slots (liveIdx p))[k]? = some i := by
      rw [List.getElem?_eq_getElem hklt, hkeq]
    obtain ⟨s, hs, hsl, hcont⟩ := mo.placed k i hk
    have hsa : slotAt p i = s := slotAt_of_getElem? hs
    have hstep := @sumLens_take_succ p _ _ _ hk
    rw [hsa] at hstep
    have htk0 : 0 ≤ sumLens p ((sortOrder p.slots (liveIdx p)).take k) := by
      have := @sumLens_nonneg p ((sortOrder p.slots (liveIdx p)).take k)
        (fun j hj => hordpos j (List.mem_of_mem_take hj))
      exact this
    have htklast : sumLens p ((sortOrder p.slots (liveIdx p)).take (k + 1)) ≤
        sumLens p (sortOrder p.slots (liveIdx p)) :=
      sumLens_take_le hordpos (k + 1)
    refine ⟨s, _, hs, by rw [hq]; exact hsl, ?_, ?_, by rw [hq]; exact hcont⟩
    · rw [hfptr, ← hsum]
      omega
    · omega
  have hlenpres : ∀ i : Nat, (slotAt (SP_CompactPage p) i).length = (slotAt p i).length := by
    intro i
    by_cases hi : i ∈ liveIdx p
    · obtain ⟨s, off, hs, hsl, _, _, _⟩ := hlive i hi
      rw [slotAt_of_getElem? hsl, slotAt_of_getElem? hs]
    · unfold slotAt
      rw [hdead i hi]
  refine ⟨hsc, hfl, hal, hslen, hblen, hfptr, by rw [hfptr]; omega, hdead, hlive, hplaced,
    hlenpres, ?_⟩
  -- re-established invariants
  have hqlive : ∀ i : Nat, i < (SP_CompactPage p).slots.length →
      0 < (slotAt (SP_CompactPage p) i).length → i ∈ liveIdx p := by
    intro i hilen hl
    rw [hlenpres] at hl
    rw [hslen, hcl] at hilen
    exact mem_liveIdx.mpr ⟨hilen, hl⟩
  refine ⟨by rw [hblen, hb], by rw [hsc]; exact hc0, ?_, by rw [hsc]; exact hcmax,
    ?_, ?_, ?_, ?_⟩
  · rw [hslen, hsc, hcl]
  · rw [hfptr, hsc]
    omega
  · rw [hfptr]
    omega
  · -- live records inside the new heap
    intro i hilen hl
    have hi := hqlive i hilen hl
    obtain ⟨s, off, hs, hsl, h1, h2, _⟩ := hlive i hi
    rw [slotAt_of_getElem? hsl]
    exact ⟨h1, h2⟩
  · -- pairwise disjointness of the repacked records
    intro i hilen j hjlen
    unfold slotsDisjoint
    intro hij hli hlj
    have hi := hqlive i hilen hli
    have hj := hqlive j hjlen hlj
    have hio : i ∈ sortOrder p.slots (liveIdx p) := (order_mem p i).mpr hi
    have hjo : j ∈ sortOrder p.slots (liveIdx p) := (order_mem p j).mpr hj
    obtain ⟨k, hklt, hkeq⟩ := List.getElem_of_mem hio
    obtain ⟨k', hklt', hkeq'⟩ := List.getElem_of_mem hjo
    have hk : (sortOrder p.slots (liveIdx p))[k]? = some i := by
      rw [List.getElem?_eq_getElem hklt, hkeq]
    have hk' : (sortOrder p.slots (liveIdx p))[k']? = some j := by
      rw [List.getElem?_eq_getElem hklt', hkeq']
    obtain ⟨s, hs, hsl⟩ := hplaced k i hk
    obtain ⟨t, ht, htl⟩ := hplaced k' j hk'
    have hsi := slotAt_of_getElem? hsl
    have htj := slotAt_of_getElem? htl
    have hoi : (slotAt (SP_CompactPage p) i).offset =
        (PF_PAGE_SIZE : Int) - sumLens p ((sortOrder p.slots (liveIdx p)).take (k + 1)) := by
      rw [hsi]
    have hleni : (slotAt (SP_CompactPage p) i).length = s.length := by rw [hsi]
    have hoj : (slotAt (SP_CompactPage p) j).offset =
        (PF_PAGE_SIZE : Int) - sumLens p ((sortOrder p.slots (liveIdx p)).take (k' + 1)) := by
      rw [htj]
    have hlenj : (slotAt (SP_CompactPage p) j).length = t.length := by rw [htj]
    have hkk : k ≠ k' := by
      intro he
      subst he
      apply hij
      rw [← hkeq, ← hkeq']
    have hsteps : sumLens p ((sortOrder p.slots (liveIdx p)).take (k + 1)) =
        sumLens p ((sortOrder p.slots (liveIdx p)).take k) + (slotAt p i).length :=
      sumLens_take_succ hk
    have hsteps' : sumLens p ((sortOrder p.slots (liveIdx p)).take (k' + 1)) =
        sumLens p ((sortOrder p.slots (liveIdx p)).take k') + (slotAt p j).length :=
      sumLens_take_succ hk'
    have hsa : slotAt p i = s := slotAt_of_getElem? hs
    have hta : slotAt p j = t := slotAt_of_getElem? ht
    rw [hsa] at hsteps
    rw [hta] at hsteps'
    rcases Nat.lt_or_ge k k' with hlt | hge
    · have hmono := sumLens_take_mono hordpos (show k + 1 ≤ k' from hlt)
      omega
    · have hlt' : k' < k := by omega
      have hmono := sumLens_take_mono hordpos (show k' + 1 ≤ k from hlt')
      omega

/-- The live-slot set is unchanged by compaction. -/
theorem liveIdx_compact (p : SP_Page) (hInv : SP_Inv p) :
    liveIdx (SP_CompactPage p) = liveIdx p := by
  have co := SP_CompactPage_spec p hInv
  unfold liveIdx
  rw [co.sc]
  apply List.filter_congr
  intro i _
  rw [co.lenpres i]

/-! ## Preservation of the invariants by the page operations -/

theorem SP_EnsureSpace_cases (p : SP_Page) (nd : Int) :
    (nd ≤ SP_PageFreeSpace p ∧ SP_EnsureSpace p nd = (SP_OK, p)) ∨
    (¬ nd ≤ SP_PageFreeSpace p ∧ nd ≤ SP_PageFreeSpace (SP_CompactPage p) ∧
      SP_EnsureSpace p nd = (SP_OK, SP_CompactPage p)) ∨
    (¬ nd ≤ SP_PageFreeSpace p ∧ ¬ nd ≤ SP_PageFreeSpace (SP_CompactPage p) ∧
      SP_EnsureSpace p nd = (SP_ERR_NOSPACE, SP_CompactPage p)) := by
  simp only [SP_EnsureSpace]
  by_cases h1 : nd ≤ SP_PageFreeSpace p
  · left
    exact ⟨h1, by rw [if_pos h1]⟩
  · by_cases h2 : nd ≤ SP_PageFreeSpace (SP_CompactPage p)
    · right; left
      exact ⟨h1, h2, by rw [if_neg h1, if_pos h2]⟩
    · right; right
      exact ⟨h1, h2, by rw [if_neg h1, if_neg h2]⟩

theorem SP_EnsureSpace_inv {p : SP_Page} (hInv : SP_Inv p) (nd : Int) :
    SP_Inv (SP_EnsureSpace p nd).2 := by
  rcases SP_EnsureSpace_cases p nd with ⟨_, he⟩ | ⟨_, _, he⟩ | ⟨_, _, he⟩ <;> rw [he]
  · exact hInv
  · exact (SP_CompactPage_spec p hInv).inv
  · exact (SP_CompactPage_spec p hInv).inv

theorem SP_EnsureSpace_ok {p : SP_Page} (nd : Int)
    (h : (SP_EnsureSpace p nd).1 = SP_OK) :
    nd ≤ SP_PageFreeSpace (SP_EnsureSpace p nd).2 := by
  rcases SP_EnsureSpace_cases p nd with ⟨hf, he⟩ | ⟨_, hf, he⟩ | ⟨_, _, he⟩ <;> rw [he]
  · exact hf
  · exact hf
  · rw [he] at h
    exact absurd h (by simp [SP_ERR_NOSPACE, SP_OK])

theorem SP_EnsureSpace_flh (p : SP_Page) (hInv : SP_Inv p) (nd : Int) :
    (SP_EnsureSpace p nd).2.freeListHead = p.freeListHead := by
  rcases SP_EnsureSpace_cases p nd with ⟨_, he⟩ | ⟨_, _, he⟩ | ⟨_, _, he⟩ <;> rw [he]
  · exact (SP_CompactPage_spec p hInv).fl
  · exact (SP_CompactPage_spec p hInv).fl

theorem SP_EnsureSpace_sc (p : SP_Page) (hInv : SP_Inv p) (nd : Int) :
    (SP_EnsureSpace p nd).2.slotCount = p.slotCount := by
  rcases SP_EnsureSpace_cases p nd with ⟨_, he⟩ | ⟨_, _, he⟩ | ⟨_, _, he⟩ <;> rw [he]
  · exact (SP_CompactPage_spec p hInv).sc
  · exact (SP_CompactPage_spec p hInv).sc

theorem SP_ReserveSlot_cases (p : SP_Page) :
    (p.freeListHead ≠ SP_INVALID_SLOT ∧
      SP_ReserveSlot p = (p.freeListHead,
        { p with freeListHead := (slotAt p p.freeListHead.toNat).offset })) ∨
    (p.freeListHead = SP_INVALID_SLOT ∧ (SP_MAX_SLOTS : Int) ≤ p.slotCount ∧
      SP_ReserveSlot p = (SP_ERR_NOSPACE, p)) ∨
    (p.freeListHead = SP_INVALID_SLOT ∧ p.slotCount < (SP_MAX_SLOTS : Int) ∧
      SP_ReserveSlot p = (p.slotCount,
        { p with slotCount := p.slotCount + 1, slots := p.slots ++ [⟨0, 0⟩] })) := by
  simp only [SP_ReserveSlot]
  by_cases h1 : p.freeListHead ≠ SP_INVALID_SLOT
  · left
    exact ⟨h1, by rw [if_pos h1]⟩
  · by_cases h2 : (SP_MAX_SLOTS : Int) ≤ p.slotCount
    · right; left
      refine ⟨by omega, h2, ?_⟩
      rw [if_neg h1, if_pos h2]
    · right; right
      refine ⟨by omega, by omega, ?_⟩
      rw [if_neg h1, if_neg h2]

/-- Copying the record bytes below the free pointer and lowering it keeps the
invariants, as long as the record fits in the directory–heap gap. -/
theorem insert_write_inv {p1 : SP_Page} (hInv : SP_Inv p1) (d : List Int) (l : Int)
    (hl : 0 < l) (hfs : l ≤ SP_PageFreeSpace p1) :
    SP_Inv { p1 with
      bytes := writeBytes p1.bytes (p1.freePtr - l).toNat (d.take l.toNat),
      freePtr := p1.freePtr - l } := by
  obtain ⟨hb, hc0, hcl, hcmax, hdir, hfple, hheap, hdisj⟩ := hInv
  unfold SP_PageFreeSpace at hfs
  have hsc4 : (0 : Int) ≤ p1.slotCount * (slotEntrySize : Int) := by positivity
  have htake : (d.take l.toNat).length ≤ l.toNat := by
    simp [List.length_take]
  have hwb : (writeBytes p1.bytes (p1.freePtr - l).toNat (d.take l.toNat)).length =
      p1.bytes.length := by
    apply writeBytes_length
    omega
  refine ⟨by rw [hwb]; exact hb, hc0, hcl, hcmax, by simp; omega, by simp; omega, ?_, ?_⟩
  · intro i hlen hl2
    have := hheap i (by simpa using hlen) (by simpa [slotAt] using hl2)
    simp only [slotAt] at this ⊢
    refine ⟨by omega, this.2⟩
  · intro i hleni j hlenj
    unfold slotsDisjoint
    intro hij hli hlj
    have := hdisj i (by simpa using hleni) j (by simpa using hlenj)
    unfold slotsDisjoint at this
    simp only [slotAt] at hli hlj ⊢
    exact this hij (by simpa [slotAt] using hli) (by simpa [slotAt] using hlj)

/-- Overwriting one directory entry with a record parked at the free
pointer keeps the invariants, provided every other live record sits above
the new one. -/
theorem set_slot_inv {q : SP_Page} (hInv : SP_Inv q) (idx : Nat) (l : Int) (flh' : Int)
    (hl : 0 < l)
    (hold : ∀ i, i < q.slots.length → i ≠ idx → 0 < (slotAt q i).length →
      q.freePtr + l ≤ (slotAt q i).offset)
    (hend : q.freePtr + l ≤ (PF_PAGE_SIZE : Int)) :
    SP_Inv { q with freeListHead := flh', slots := q.slots.set idx ⟨q.freePtr, l⟩ } := by
  obtain ⟨hb, hc0, hcl, hcmax, hdir, hfple, hheap, hdisj⟩ := hInv
  by_cases hrange : idx < q.slots.length
  · have hAt_idx : slotAt
        { q with freeListHead := flh', slots := q.slots.set idx ⟨q.freePtr, l⟩ } idx =
        ⟨q.freePtr, l⟩ := by
      simp [slotAt, List.getElem?_set_self hrange]
    have hAt_ne : ∀ i, i ≠ idx → slotAt
        { q with freeListHead := flh', slots := q.slots.set idx ⟨q.freePtr, l⟩ } i =
        slotAt q i := by
      intro i hi
      simp [slotAt, List.getElem?_set_ne (fun h => hi h.symm)]
    refine ⟨hb, hc0, by simpa using hcl, hcmax, by simpa using hdir,
      by simpa using hfple, ?_, ?_⟩
    · intro i hleni
      unfold slotInHeap
      intro hli
      have hi2 : i < q.slots.length := by simpa using hleni
      by_cases hix : i = idx
      · rw [hix] at hli ⊢
        rw [hAt_idx] at hli ⊢
        exact ⟨le_rfl, hend⟩
      · rw [hAt_ne i hix] at hli ⊢
        exact hheap i hi2 hli
    · intro i hleni j hlenj
      unfold slotsDisjoint
      intro hij hli hlj
      have hi2 : i < q.slots.length := by simpa using hleni
      have hj2 : j < q.slots.length := by simpa using hlenj
      by_cases hix : i = idx
      · have hjx : j ≠ idx := fun h => hij (hix.trans h.symm)
        rw [hix] at hli ⊢
        rw [hAt_idx] at hli ⊢
        rw [hAt_ne j hjx] at hlj ⊢
        left
        exact hold j hj2 hjx hlj
      · by_cases hjx : j = idx
        · have hix' : i ≠ idx := hix
          rw [hjx] at hlj ⊢
          rw [hAt_idx] at hlj ⊢
          rw [hAt_ne i hix'] at hli ⊢
          right
          exact hold i hi2 hix' hli
        · rw [hAt_ne i hix] at hli ⊢
          rw [hAt_ne j hjx] at hlj ⊢
          exact hdisj i hi2 j hj2 hij hli hlj
  · -- out-of-range index: the directory write is a no-op
    have hnop : q.slots.set idx ⟨q.freePtr, l⟩ = q.slots :=
      List.set_eq_of_length_le (by omega)
    rw [hnop]
    exact ⟨hb, hc0, hcl, hcmax, hdir, hfple, hheap, hdisj⟩

/-- Appending a fresh directory entry holding a record parked at the free
pointer keeps the invariants, when the gap also had room for the entry. -/
theorem append_slot_inv {q : SP_Page} (hInv : SP_Inv q) (l : Int)
    (hl : 0 < l)
    (hold : ∀ i, i < q.slots.length → 0 < (slotAt q i).length →
      q.freePtr + l ≤ (slotAt q i).offset)
    (hend : q.freePtr + l ≤ (PF_PAGE_SIZE : Int))
    (hmax : q.slotCount < (SP_MAX_SLOTS : Int))
    (hdir4 : (headerSize : Int) + (q.slotCount + 1) * (slotEntrySize : Int) ≤ q.freePtr) :
    SP_Inv { q with slotCount := q.slotCount + 1, slots := (q.slots ++ [(⟨0, 0⟩ : SP_SlotEntry)]).set q.slotCount.toNat ⟨q.freePtr, l⟩ } := by
  obtain ⟨hb, hc0, hcl, hcmax, hdir, hfple, hheap, hdisj⟩ := hInv
  have hidx : q.slotCount.toNat = q.slots.length := hcl.symm
  have hAt_lt : ∀ i, i < q.slots.length → slotAt
      { q with slotCount := q.slotCount + 1, slots := (q.slots ++ [(⟨0, 0⟩ : SP_SlotEntry)]).set q.slotCount.toNat ⟨q.freePtr, l⟩ } i =
      slotAt q i := by
    intro i hi
    simp only [slotAt]
    rw [List.getElem?_set_ne (by omega), List.getElem?_append_left hi]
  have hAt_eq : slotAt
      { q with slotCount := q.slotCount + 1, slots := (q.slots ++ [(⟨0, 0⟩ : SP_SlotEntry)]).set q.slotCount.toNat ⟨q.freePtr, l⟩ }
      q.slots.length = ⟨q.freePtr, l⟩ := by
    simp only [slotAt]
    rw [← hidx, List.getElem?_set_self (by simp; omega)]
    rfl
  have hAt_gt : ∀ i, q.slots.length < i → slotAt
      { q with slotCount := q.slotCount + 1, slots := (q.slots ++ [(⟨0, 0⟩ : SP_SlotEntry)]).set q.slotCount.toNat ⟨q.freePtr, l⟩ } i =
      ⟨0, 0⟩ := by
    intro i hi
    simp only [slotAt]
    rw [List.getElem?_set_ne (by omega), List.getElem?_eq_none (by simp; omega)]
    rfl
  refine ⟨hb, by simp; omega, by simp; omega, by simp; omega, by simpa using hdir4,
    by simpa using hfple, ?_, ?_⟩
  · intro i hleni
    unfold slotInHeap
    intro hli
    have hi3 : i < q.slots.length + 1 := by simpa using hleni
    rcases Nat.lt_or_ge i q.slots.length with hilt | hige
    · rw [hAt_lt i hilt] at hli ⊢
      exact hheap i hilt hli
    · have hieq : i = q.slots.length := by omega
      subst hieq
      rw [hAt_eq] at hli ⊢
      exact ⟨le_rfl, hend⟩
  · intro i hleni j hlenj
    unfold slotsDisjoint
    intro hij hli hlj
    have hi3 : i < q.slots.length + 1 := by simpa using hleni
    have hj3 : j < q.slots.length + 1 := by simpa using hlenj
    rcases Nat.lt_or_ge i q.slots.length with hilt | hige
    · rcases Nat.lt_or_ge j q.slots.length with hjlt | hjge
      · rw [hAt_lt i hilt] at hli ⊢
        rw [hAt_lt j hjlt] at hlj ⊢
        exact hdisj i hilt j hjlt hij hli hlj
      · have hjeq : j = q.slots.length := by omega
        subst hjeq
        rw [hAt_lt i hilt] at hli ⊢
        rw [hAt_eq] at hlj ⊢
        right
        exact hold i hilt hli
    · have hieq : i = q.slots.length := by omega
      subst hieq
      rcases Nat.lt_or_ge j q.slots.length with hjlt | hjge
      · rw [hAt_eq] at hli ⊢
        rw [hAt_lt j hjlt] at hlj ⊢
        left
        exact hold j hjlt hlj
      · have hjeq : j = q.slots.length := by omega
        exact absurd hjeq.symm (by omega)

theorem SP_InsertRecord_inv {p : SP_Page} (hInv : SP_Inv p) (d : List Int) (l : Int) :
    SP_Inv (SP_InsertRecord p d l).2.1 := by
  simp only [SP_InsertRecord]
  by_cases h0 : l ≤ 0
  · rw [if_pos h0]
    exact hInv
  rw [if_neg h0]
  have hl : 0 < l := by omega
  set nd := l + (if p.freeListHead = SP_INVALID_SLOT then (slotEntrySize : Int) else 0)
    with hnd
  have hesInv : SP_Inv (SP_EnsureSpace p nd).2 := SP_EnsureSpace_inv hInv nd
  by_cases hrc : (SP_EnsureSpace p nd).1 ≠ SP_OK
  · rw [if_pos hrc]
    exact hesInv
  rw [if_neg hrc]
  push_neg at hrc
  have hfs : nd ≤ SP_PageFreeSpace (SP_EnsureSpace p nd).2 := SP_EnsureSpace_ok nd hrc
  set p1 := (SP_EnsureSpace p nd).2 with hp1
  have hndl : l ≤ nd := by
    rw [hnd]
    split <;> simp [slotEntrySize]
  by_cases hdest : p1.freePtr - l < (headerSize : Int)
  · rw [if_pos hdest]
    exact hesInv
  rw [if_neg hdest]
  have hmid : SP_Inv { p1 with
      bytes := writeBytes p1.bytes (p1.freePtr - l).toNat (d.take l.toNat),
      freePtr := p1.freePtr - l } := insert_write_inv hesInv d l hl (by omega)
  set p2 : SP_Page := { p1 with
      bytes := writeBytes p1.bytes (p1.freePtr - l).toNat (d.take l.toNat),
      freePtr := p1.freePtr - l } with hp2
  have hfp2 : p2.freePtr = p1.freePtr - l := rfl
  have hsl2 : p2.slots = p1.slots := rfl
  have hflh2 : p2.freeListHead = p1.freeListHead := rfl
  have hsc2 : p2.slotCount = p1.slotCount := rfl
  obtain ⟨hb1, hc01, hcl1, hcmax1, hdir1, hfple1, hheap1, hdisj1⟩ := hesInv
  have hold : ∀ i, i < p2.slots.length → 0 < (slotAt p2 i).length →
      p2.freePtr + l ≤ (slotAt p2 i).offset := by
    intro i hi hlive
    have hsame : slotAt p2 i = slotAt p1 i := rfl
    rw [hsame] at hlive ⊢
    rw [hsl2] at hi
    have := hheap1 i hi hlive
    rw [hfp2]
    omega
  have hend2 : p2.freePtr + l ≤ (PF_PAGE_SIZE : Int) := by
    rw [hfp2]
    omega
  rcases SP_ReserveSlot_cases p2 with ⟨hne, hr⟩ | ⟨hfl, hmax, hr⟩ | ⟨hfl, hlt, hr⟩
  · -- tombstone head reused
    rw [hr]
    by_cases hneg : p2.freeListHead < 0
    · rw [if_pos hneg]
      exact hmid
    rw [if_neg hneg]
    simp only
    have := set_slot_inv hmid p2.freeListHead.toNat l
      ((slotAt p2 p2.freeListHead.toNat).offset) hl
      (fun i hi hix hlive => hold i hi hlive) hend2
    exact this
  · rw [hr]
    have : (SP_ERR_NOSPACE : Int) < 0 := by simp [SP_ERR_NOSPACE]
    rw [if_pos this]
    exact hmid
  · rw [hr]
    have hscnn : ¬ p2.slotCount < 0 := by omega
    rw [if_neg hscnn]
    simp only
    have h1 := SP_EnsureSpace_flh p hInv nd
    rw [← hp1] at h1
    have hpflh : p.freeListHead = SP_INVALID_SLOT := by
      rw [← h1, ← hflh2]
      exact hfl
    have hnd4 : nd = l + (slotEntrySize : Int) := by
      rw [hnd, if_pos hpflh]
    have hdir4 : (headerSize : Int) + (p2.slotCount + 1) * (slotEntrySize : Int) ≤
        p2.freePtr := by
      unfold SP_PageFreeSpace at hfs
      have h4 : (slotEntrySize : Int) = 4 := by norm_num [slotEntrySize]
      rw [hnd4] at hfs
      rw [hfp2, hsc2]
      rw [h4] at hfs ⊢
      omega
    exact append_slot_inv hmid l hl hold hend2 hlt hdir4

theorem SP_DeleteRecord_inv {p : SP_Page} (hInv : SP_Inv p) (slotId : Int) :
    SP_Inv (SP_DeleteRecord p slotId).2 := by
  simp only [SP_DeleteRecord]
  by_cases h1 : slotId < 0 ∨ p.slotCount ≤ slotId
  · rw [if_pos h1]
    exact hInv
  rw [if_neg h1]
  by_cases h2 : (slotAt p slotId.toNat).length ≤ 0
  · rw [if_pos h2]
    exact hInv
  rw [if_neg h2]
  obtain ⟨hb, hc0, hcl, hcmax, hdir, hfple, hheap, hdisj⟩ := hInv
  have hrange : slotId.toNat < p.slots.length := by
    rw [hcl]
    omega
  have hAt_idx : slotAt { p with
      slots := p.slots.set slotId.toNat ⟨p.freeListHead, -1⟩, freeListHead := slotId }
      slotId.toNat = ⟨p.freeListHead, -1⟩ := by
    simp [slotAt, List.getElem?_set_self hrange]
  have hAt_ne : ∀ i, i ≠ slotId.toNat → slotAt { p with
      slots := p.slots.set slotId.toNat ⟨p.freeListHead, -1⟩, freeListHead := slotId } i =
      slotAt p i := by
    intro i hi
    simp [slotAt, List.getElem?_set_ne (fun h => hi h.symm)]
  refine ⟨hb, hc0, by simpa using hcl, hcmax, by simpa using hdir,
    by simpa using hfple, ?_, ?_⟩
  · intro i hleni
    unfold slotInHeap
    intro hli
    have hi2 : i < p.slots.length := by simpa using hleni
    by_cases hix : i = slotId.toNat
    · rw [hix, hAt_idx] at hli
      exact absurd hli (by norm_num)
    · rw [hAt_ne i hix] at hli ⊢
      exact hheap i hi2 hli
  · intro i hleni j hlenj
    unfold slotsDisjoint
    intro hij hli hlj
    have hi2 : i < p.slots.length := by simpa using hleni
    have hj2 : j < p.slots.length := by simpa using hlenj
    by_cases hix : i = slotId.toNat
    · rw [hix, hAt_idx] at hli
      exact absurd hli (by norm_num)
    · by_cases hjx : j = slotId.toNat
      · rw [hjx, hAt_idx] at hlj
        exact absurd hlj (by norm_num)
      · rw [hAt_ne i hix] at hli ⊢
        rw [hAt_ne j hjx] at hlj ⊢
        exact hdisj i hi2 j hj2 hij hli hlj

theorem SP_InitPage_inv : SP_Inv SP_InitPage := by
  refine ⟨by simp [SP_InitPage], by norm_num [SP_InitPage],
    by simp [SP_InitPage], by norm_num [SP_InitPage, SP_MAX_SLOTS, PF_PAGE_SIZE,
      headerSize, slotEntrySize],
    by norm_num [SP_InitPage, headerSize, slotEntrySize, PF_PAGE_SIZE],
    by norm_num [SP_InitPage], ?_, ?_⟩
  · intro i hi
    simp [SP_InitPage] at hi
  · intro i hi
    simp [SP_InitPage] at hi

theorem applyOp_inv {p : SP_Page} (hInv : SP_Inv p) (op : SP_Op) :
    SP_Inv (applyOp p op) := by
  cases op with
  | insert d l => exact SP_InsertRecord_inv hInv d l
  | delete s => exact SP_DeleteRecord_inv hInv s

/-- Every page history (init followed by arbitrary inserts and deletes)
stays inside the slotted-page invariants. -/
theorem runOps_inv (ops : List SP_Op) : SP_Inv (runOps ops) := by
  suffices h : ∀ (ops : List SP_Op) (p : SP_Page), SP_Inv p →
      SP_Inv (ops.foldl applyOp p) from h ops SP_InitPage SP_InitPage_inv
  intro ops
  induction ops with
  | nil => exact fun p h => h
  | cons op rest ih => exact fun p h => ih _ (applyOp_inv h op)

/-- C1: for every page initialized by `SP_InitPage` and evolved by any
sequence of `SP_InsertRecord` and `SP_DeleteRecord` calls (with the internal
compaction they may trigger), after every call the slot directory ends at or
below the free pointer: `headerSize + slotCount·slotEntrySize ≤ freePtr`, so
the directory and the record heap never overlap. -/
theorem C1_directory_and_heap_never_overlap (ops : List SP_Op) :
    (headerSize : Int) + (runOps ops).slotCount * (slotEntrySize : Int) ≤
      (runOps ops).freePtr :=
  (runOps_inv ops).2.2.2.2.1

/-! ## Structural facts about the operations (no invariant needed) -/

theorem compactMoves_header :
    ∀ (order : List Nat) (p : SP_Page) (fp : Int),
      (compactMoves p order fp).1.slotCount = p.slotCount ∧
      (compactMoves p order fp).1.freeListHead = p.freeListHead ∧
      (compactMoves p order fp).1.attrLength = p.attrLength
  | [], p, fp => ⟨rfl, rfl, rfl⟩
  | i :: rest, p, fp => by
    simp only [compactMoves]
    exact compactMoves_header rest _ _

theorem SP_CompactPage_slotCount (p : SP_Page) :
    (SP_CompactPage p).slotCount = p.slotCount :=
  (compactMoves_header (sortOrder p.slots (liveIdx p)) p (PF_PAGE_SIZE : Int)).1

theorem SP_CompactPage_flh (p : SP_Page) :
    (SP_CompactPage p).freeListHead = p.freeListHead :=
  (compactMoves_header (sortOrder p.slots (liveIdx p)) p (PF_PAGE_SIZE : Int)).2.1

theorem SP_EnsureSpace_slotCount (p : SP_Page) (nd : Int) :
    (SP_EnsureSpace p nd).2.slotCount = p.slotCount := by
  rcases SP_EnsureSpace_cases p nd with ⟨_, he⟩ | ⟨_, _, he⟩ | ⟨_, _, he⟩ <;> rw [he]
  · exact SP_CompactPage_slotCount p
  · exact SP_CompactPage_slotCount p

theorem SP_EnsureSpace_freeListHead (p : SP_Page) (nd : Int) :
    (SP_EnsureSpace p nd).2.freeListHead = p.freeListHead := by
  rcases SP_EnsureSpace_cases p nd with ⟨_, he⟩ | ⟨_, _, he⟩ | ⟨_, _, he⟩ <;> rw [he]
  · exact SP_CompactPage_flh p
  · exact SP_CompactPage_flh p

theorem SP_DeleteRecord_ok {p : SP_Page} {s : Int}
    (h : (SP_DeleteRecord p s).1 = SP_OK) :
    (SP_DeleteRecord p s).2.freeListHead = s ∧
    (SP_DeleteRecord p s).2.slotCount = p.slotCount ∧
    0 ≤ s := by
  simp only [SP_DeleteRecord] at h ⊢
  by_cases h1 : s < 0 ∨ p.slotCount ≤ s
  · rw [if_pos h1] at h
    exact absurd h (by norm_num [SP_ERR_INVALID_SLOT, SP_OK])
  rw [if_neg h1] at h ⊢
  by_cases h2 : (slotAt p s.toNat).length ≤ 0
  · rw [if_pos h2] at h
    exact absurd h (by norm_num [SP_ERR_INVALID_SLOT, SP_OK])
  rw [if_neg h2]
  push_neg at h1
  exact ⟨rfl, rfl, by omega⟩

theorem SP_InsertRecord_ok_some {p : SP_Page} {d : List Int} {l : Int}
    (h : (SP_InsertRecord p d l).1 = SP_OK) :
    ∃ id, (SP_InsertRecord p d l).2.2 = some id ∧ 0 ≤ id := by
  simp only [SP_InsertRecord] at h ⊢
  by_cases h0 : l ≤ 0
  · rw [if_pos h0] at h
    exact absurd h (by norm_num [SP_ERR_NOSPACE, SP_OK])
  rw [if_neg h0] at h ⊢
  set nd := l + (if p.freeListHead = SP_INVALID_SLOT then (slotEntrySize : Int) else 0)
    with hnd
  by_cases hrc : (SP_EnsureSpace p nd).1 ≠ SP_OK
  · rw [if_pos hrc] at h
    exact absurd h (by norm_num [SP_ERR_NOSPACE, SP_OK])
  rw [if_neg hrc] at h ⊢
  by_cases hdest : (SP_EnsureSpace p nd).2.freePtr - l < (headerSize : Int)
  · rw [if_pos hdest] at h
    exact absurd h (by norm_num [SP_ERR_NOSPACE, SP_OK])
  rw [if_neg hdest] at h ⊢
  set p1 := (SP_EnsureSpace p nd).2 with hp1
  set p2 : SP_Page := { p1 with
      bytes := writeBytes p1.bytes (p1.freePtr - l).toNat (d.take l.toNat),
      freePtr := p1.freePtr - l } with hp2
  by_cases hneg : (SP_ReserveSlot p2).1 < 0
  · rw [if_pos hneg] at h
    rw [SP_OK] at h
    omega
  · rw [if_neg hneg] at h ⊢
    exact ⟨_, rfl, by omega⟩

theorem SP_InsertRecord_ok_reuse {p : SP_Page} {d : List Int} {l : Int}
    (hflh : p.freeListHead ≠ SP_INVALID_SLOT)
    (h : (SP_InsertRecord p d l).1 = SP_OK) :
    (SP_InsertRecord p d l).2.1.slotCount = p.slotCount ∧
    (SP_InsertRecord p d l).2.2 = some p.freeListHead := by
  simp only [SP_InsertRecord] at h ⊢
  by_cases h0 : l ≤ 0
  · rw [if_pos h0] at h
    exact absurd h (by norm_num [SP_ERR_NOSPACE, SP_OK])
  rw [if_neg h0] at h ⊢
  set nd := l + (if p.freeListHead = SP_INVALID_SLOT then (slotEntrySize : Int) else 0)
    with hnd
  by_cases hrc : (SP_EnsureSpace p nd).1 ≠ SP_OK
  · rw [if_pos hrc] at h
    exact absurd h (by norm_num [SP_ERR_NOSPACE, SP_OK])
  rw [if_neg hrc] at h ⊢
  by_cases hdest : (SP_EnsureSpace p nd).2.freePtr - l < (headerSize : Int)
  · rw [if_pos hdest] at h
    exact absurd h (by norm_num [SP_ERR_NOSPACE, SP_OK])
  rw [if_neg hdest] at h ⊢
  set p1 := (SP_EnsureSpace p nd).2 with hp1
  set p2 : SP_Page := { p1 with
      bytes := writeBytes p1.bytes (p1.freePtr - l).toNat (d.take l.toNat),
      freePtr := p1.freePtr - l } with hp2
  have hflh2 : p2.freeListHead = p.freeListHead := by
    show p1.freeListHead = p.freeListHead
    rw [hp1]
    exact SP_EnsureSpace_freeListHead p nd
  have hsc2 : p2.slotCount = p.slotCount := by
    show p1.slotCount = p.slotCount
    rw [hp1]
    exact SP_EnsureSpace_slotCount p nd
  rcases SP_ReserveSlot_cases p2 with ⟨hne, hr⟩ | ⟨hfl, _, hr⟩ | ⟨hfl, _, hr⟩
  · rw [hr] at h ⊢
    by_cases hneg : p2.freeListHead < 0
    · rw [if_pos hneg] at h
      have h' : p2.freeListHead = (0 : Int) := h
      omega
    · rw [if_neg hneg] at h ⊢
      constructor
      · show p2.slotCount = p.slotCount
        exact hsc2
      · show some p2.freeListHead = some p.freeListHead
        rw [hflh2]
  · rw [hflh2] at hfl
    exact absurd hfl hflh
  · rw [hflh2] at hfl
    exact absurd hfl hflh

/-- C6: after an insertion that returned slot id `s`, deleting `s` and
inserting again (any record that fits) reuses the tombstoned slot `s` and
leaves `slotCount` exactly as it was after the first insertion — the
directory does not grow. -/
theorem C6_tombstone_reuse_keeps_slotCount
    (p : SP_Page) (d1 d2 : List Int) (l1 L s : Int)
    (h1 : (SP_InsertRecord p d1 l1).1 = SP_OK)
    (hs : (SP_InsertRecord p d1 l1).2.2 = some s)
    (h2 : (SP_DeleteRecord (SP_InsertRecord p d1 l1).2.1 s).1 = SP_OK)
    (h3 : (SP_InsertRecord (SP_DeleteRecord (SP_InsertRecord p d1 l1).2.1 s).2 d2 L).1 =
      SP_OK) :
    (SP_InsertRecord (SP_DeleteRecord (SP_InsertRecord p d1 l1).2.1 s).2 d2 L).2.2 =
      some s ∧
    ((SP_InsertRecord (SP_DeleteRecord (SP_InsertRecord p d1 l1).2.1 s).2 d2 L).2.1).slotCount =
      ((SP_InsertRecord p d1 l1).2.1).slotCount := by
  obtain ⟨hdflh, hdsc, hs0⟩ := SP_DeleteRecord_ok h2
  have hflhne : (SP_DeleteRecord (SP_InsertRecord p d1 l1).2.1 s).2.freeListHead ≠
      SP_INVALID_SLOT := by
    rw [hdflh]
    norm_num [SP_INVALID_SLOT]
    omega
  obtain ⟨hsc3, hid3⟩ := SP_InsertRecord_ok_reuse hflhne h3
  refine ⟨by rw [hid3, hdflh], by rw [hsc3, hdsc]⟩

/-- Witness for C6 on a concrete page: insert three bytes, delete the slot,
insert two bytes; the directory stays at one slot and the id is reused. -/
theorem C6_tombstone_reuse_keeps_slotCount_witness :
    (SP_InsertRecord SP_InitPage [1, 2, 3] 3).1 = SP_OK ∧
    (SP_InsertRecord (SP_DeleteRecord (SP_InsertRecord SP_InitPage [1, 2, 3] 3).2.1 0).2
        [4, 5] 2).2.2 = some 0 ∧
    ((SP_InsertRecord (SP_DeleteRecord (SP_InsertRecord SP_InitPage [1, 2, 3] 3).2.1 0).2
        [4, 5] 2).2.1).slotCount =
      ((SP_InsertRecord SP_InitPage [1, 2, 3] 3).2.1).slotCount :=
  ⟨rfl,
    (C6_tombstone_reuse_keeps_slotCount SP_InitPage [1, 2, 3] [4, 5] 3 2 0
      rfl rfl rfl rfl).1,
    (C6_tombstone_reuse_keeps_slotCount SP_InitPage [1, 2, 3] [4, 5] 3 2 0
      rfl rfl rfl rfl).2⟩

/-! ## Frame lemmas for successful insertion -/

theorem SP_GetRecord_eq_ok {p : SP_Page} {i : Int} {b : List Int} {len : Int} :
    SP_GetRecord p i = (SP_OK, some (b, len)) ↔
      0 ≤ i ∧ i < p.slotCount ∧ 0 < (slotAt p i.toNat).length ∧
      len = (slotAt p i.toNat).length ∧
      b = readBytes p.bytes (slotAt p i.toNat).offset.toNat (slotAt p i.toNat).length.toNat := by
  simp only [SP_GetRecord]
  by_cases h1 : i < 0 ∨ p.slotCount ≤ i
  · rw [if_pos h1]
    constructor
    · intro he
      have : (SP_ERR_INVALID_SLOT : Int) = SP_OK := congrArg Prod.fst he
      exact absurd this (by norm_num [SP_ERR_INVALID_SLOT, SP_OK])
    · rintro ⟨hi0, hisc, _⟩
      omega
  · rw [if_neg h1]
    push_neg at h1
    by_cases h2 : (slotAt p i.toNat).length ≤ 0
    · rw [if_pos h2]
      constructor
      · intro he
        have : (SP_ERR_INVALID_SLOT : Int) = SP_OK := congrArg Prod.fst he
        exact absurd this (by norm_num [SP_ERR_INVALID_SLOT, SP_OK])
      · rintro ⟨_, _, hlive, _⟩
        omega
    · rw [if_neg h2]
      constructor
      · intro he
        have h3 := congrArg Prod.snd he
        simp only at h3
        have h4 : (readBytes p.bytes (slotAt p i.toNat).offset.toNat
            (slotAt p i.toNat).length.toNat, (slotAt p i.toNat).length) = (b, len) := by
          injection h3
        refine ⟨h1.1, h1.2, by omega, ?_, ?_⟩
        · exact (congrArg Prod.snd h4).symm
        · exact (congrArg Prod.fst h4).symm
      · rintro ⟨_, _, _, hlen, hbb⟩
        rw [hlen, hbb]

theorem SP_EnsureSpace_slen {p : SP_Page} (hInv : SP_Inv p) (nd : Int) :
    (SP_EnsureSpace p nd).2.slots.length = p.slots.length := by
  rcases SP_EnsureSpace_cases p nd with ⟨_, he⟩ | ⟨_, _, he⟩ | ⟨_, _, he⟩ <;> rw [he]
  · exact (SP_CompactPage_spec p hInv).slen
  · exact (SP_CompactPage_spec p hInv).slen

theorem SP_EnsureSpace_frame {p : SP_Page} (hInv : SP_Inv p) (nd : Int) :
    ∀ i : Nat, i < p.slots.length → 0 < (slotAt p i).length →
      ∃ off, (SP_EnsureSpace p nd).2.slots[i]? = some ⟨off, (slotAt p i).length⟩ ∧
        (SP_EnsureSpace p nd).2.freePtr ≤ off ∧
        off + (slotAt p i).length ≤ (PF_PAGE_SIZE : Int) ∧
        readBytes (SP_EnsureSpace p nd).2.bytes off.toNat (slotAt p i).length.toNat =
          readBytes p.bytes (slotAt p i).offset.toNat (slotAt p i).length.toNat := by
  intro i hi hlive
  obtain ⟨hb, hc0, hcl, hcmax, hdir, hfple, hheap, hdisj⟩ := hInv
  rcases SP_EnsureSpace_cases p nd with ⟨_, he⟩ | ⟨_, _, he⟩ | ⟨_, _, he⟩ <;> rw [he]
  · refine ⟨(slotAt p i).offset, ?_, (hheap i hi hlive).1, (hheap i hi hlive).2, rfl⟩
    rw [List.getElem?_eq_getElem hi]
    have : slotAt p i = p.slots[i] := by
      simp [slotAt, List.getElem?_eq_getElem hi]
    rw [this]
  all_goals {
    have hco := SP_CompactPage_spec p ⟨hb, hc0, hcl, hcmax, hdir, hfple, hheap, hdisj⟩
    have hmem : i ∈ liveIdx p := mem_liveIdx.mpr ⟨by omega, hlive⟩
    obtain ⟨s, off, hs, hsl, hlo, hhi, hcont⟩ := hco.live i hmem
    have hsa : slotAt p i = s := slotAt_of_getElem? hs
    rw [hsa]
    exact ⟨off, hsl, hlo, hhi, hcont⟩
  }

theorem SP_EnsureSpace_dead {p : SP_Page} (hInv : SP_Inv p) (nd : Int) :
    ∀ j : Nat, (slotAt p j).length ≤ 0 →
      (SP_EnsureSpace p nd).2.slots[j]? = p.slots[j]? := by
  intro j hdead
  rcases SP_EnsureSpace_cases p nd with ⟨_, he⟩ | ⟨_, _, he⟩ | ⟨_, _, he⟩ <;> rw [he]
  all_goals {
    have hco := SP_CompactPage_spec p hInv
    apply hco.dead
    intro hmem
    have := (mem_liveIdx.mp hmem).2
    omega
  }

theorem SP_GetRecord_of_slot {q : SP_Page} {id : Int} (h0 : 0 ≤ id)
    (h1 : id < q.slotCount) {off len : Int}
    (hs : slotAt q id.toNat = SP_SlotEntry.mk off len) (hl : 0 < len) :
    SP_GetRecord q id = (SP_OK, some (readBytes q.bytes off.toNat len.toNat, len)) := by
  simp only [SP_GetRecord]
  rw [if_neg (by push_neg; omega), hs]
  rw [if_neg (by simp; omega)]

/-- A successful `SP_InsertRecord` grows the directory monotonically, keeps an
empty free list empty, relocates every previously live slot with its length
and record bytes intact, and makes the new record readable at the returned
slot id. -/
theorem SP_InsertRecord_frame {p : SP_Page} (hInv : SP_Inv p) (hflh : SP_FreeHeadOk p)
    (d : List Int) (l : Int) (hOK : (SP_InsertRecord p d l).1 = SP_OK) :
    p.slotCount ≤ (SP_InsertRecord p d l).2.1.slotCount ∧
    (p.freeListHead = SP_INVALID_SLOT →
      (SP_InsertRecord p d l).2.1.freeListHead = SP_INVALID_SLOT) ∧
    (∀ i : Nat, i < p.slots.length → 0 < (slotAt p i).length →
      ∃ off : Int, (SP_InsertRecord p d l).2.1.slots[i]? =
          some (SP_SlotEntry.mk off (slotAt p i).length) ∧
        readBytes (SP_InsertRecord p d l).2.1.bytes off.toNat
            (slotAt p i).length.toNat =
          readBytes p.bytes (slotAt p i).offset.toNat (slotAt p i).length.toNat) ∧
    (l.toNat ≤ d.length →
      ∃ id, (SP_InsertRecord p d l).2.2 = some id ∧
        SP_GetRecord (SP_InsertRecord p d l).2.1 id =
          (SP_OK, some (d.take l.toNat, l))) := by
  have hclp : p.slots.length = p.slotCount.toNat := hInv.2.2.1
  simp only [SP_InsertRecord] at hOK ⊢
  by_cases h0 : l ≤ 0
  · rw [if_pos h0] at hOK
    exact absurd hOK (by norm_num [SP_ERR_NOSPACE, SP_OK])
  rw [if_neg h0] at hOK ⊢
  have hl0 : 0 < l := by omega
  set nd := l + (if p.freeListHead = SP_INVALID_SLOT then (slotEntrySize : Int) else 0)
    with hnd
  by_cases hrc : (SP_EnsureSpace p nd).1 ≠ SP_OK
  · rw [if_pos hrc] at hOK
    exact absurd hOK (by norm_num [SP_ERR_NOSPACE, SP_OK])
  rw [if_neg hrc] at hOK ⊢
  by_cases hdest : (SP_EnsureSpace p nd).2.freePtr - l < (headerSize : Int)
  · rw [if_pos hdest] at hOK
    exact absurd hOK (by norm_num [SP_ERR_NOSPACE, SP_OK])
  rw [if_neg hdest] at hOK ⊢
  push_neg at hdest
  set p1 := (SP_EnsureSpace p nd).2 with hp1
  have hesInv : SP_Inv p1 := by rw [hp1]; exact SP_EnsureSpace_inv hInv nd
  have hfr1 : ∀ i : Nat, i < p.slots.length → 0 < (slotAt p i).length →
      ∃ off, p1.slots[i]? = some (SP_SlotEntry.mk off (slotAt p i).length) ∧
        p1.freePtr ≤ off ∧ off + (slotAt p i).length ≤ (PF_PAGE_SIZE : Int) ∧
        readBytes p1.bytes off.toNat (slotAt p i).length.toNat =
          readBytes p.bytes (slotAt p i).offset.toNat (slotAt p i).length.toNat := by
    rw [hp1]; exact SP_EnsureSpace_frame hInv nd
  have hslen1 : p1.slots.length = p.slots.length := by
    rw [hp1]; exact SP_EnsureSpace_slen hInv nd
  have hflh1 : p1.freeListHead = p.freeListHead := by
    rw [hp1]; exact SP_EnsureSpace_freeListHead p nd
  have hsc1 : p1.slotCount = p.slotCount := by
    rw [hp1]; exact SP_EnsureSpace_slotCount p nd
  obtain ⟨hb1, hc01, hcl1, hcmax1, hdir1, hfple1, hheap1, hdisj1⟩ := hesInv
  set p2 : SP_Page := { p1 with
      bytes := writeBytes p1.bytes (p1.freePtr - l).toNat (d.take l.toNat),
      freePtr := p1.freePtr - l } with hp2
  have hfp2 : p2.freePtr = p1.freePtr - l := rfl
  have hsl2 : p2.slots = p1.slots := rfl
  have hflh2 : p2.freeListHead = p1.freeListHead := rfl
  have hsc2 : p2.slotCount = p1.slotCount := rfl
  have hby2 : p2.bytes = writeBytes p1.bytes (p1.freePtr - l).toNat (d.take l.toNat) :=
    rfl
  have hHi : (headerSize : Int) = 8 := rfl
  have hPi : (PF_PAGE_SIZE : Int) = 4096 := rfl
  have hPn : PF_PAGE_SIZE = 4096 := rfl
  rw [hPi] at hfple1
  rw [hHi] at hdest
  have htl : (d.take l.toNat).length ≤ l.toNat := by
    rw [List.length_take]; omega
  have hwpre : (p1.freePtr - l).toNat + (d.take l.toNat).length ≤ p1.bytes.length := by
    rw [hb1, hPn]; omega
  have hbytesFrame : ∀ off : Int, p1.freePtr ≤ off → ∀ ln : Int,
      readBytes p2.bytes off.toNat ln.toNat = readBytes p1.bytes off.toNat ln.toNat := by
    intro off hoff ln
    rw [hby2]
    apply readBytes_writeBytes_above hwpre
    omega
  have hread : l.toNat ≤ d.length →
      readBytes p2.bytes (p1.freePtr - l).toNat l.toNat = d.take l.toNat := by
    intro hld
    have hlentake : (d.take l.toNat).length = l.toNat := by
      rw [List.length_take]; omega
    rw [hby2]
    have h2 := @readBytes_writeBytes_self p1.bytes (d.take l.toNat)
      ((p1.freePtr - l).toNat) hwpre
    rw [hlentake] at h2
    exact h2
  rcases SP_ReserveSlot_cases p2 with ⟨hne, hr⟩ | ⟨hfl, hmax, hr⟩ | ⟨hfl, hltmax, hr⟩
  · -- tombstone head reused
    rw [hr] at hOK ⊢
    by_cases hneg : p2.freeListHead < 0
    · rw [if_pos hneg] at hOK
      have h' : p2.freeListHead = (0 : Int) := hOK
      omega
    rw [if_neg hneg] at hOK ⊢
    push_neg at hneg
    have hpf : p.freeListHead ≠ SP_INVALID_SLOT := by
      rw [← hflh1, ← hflh2]; exact hne
    rcases hflh with hnil | ⟨hfge, hfrange, hftomb⟩
    · exact absurd hnil hpf
    have hid2 : p2.freeListHead = p.freeListHead := by rw [hflh2, hflh1]
    have hflhnat : p2.freeListHead.toNat = p.freeListHead.toNat := by rw [hid2]
    refine ⟨?_, ?_, ?_, ?_⟩
    · show p.slotCount ≤ p2.slotCount
      omega
    · intro hpn
      exact absurd hpn hpf
    · intro i hi hlive
      obtain ⟨off, hs1, hlo, hhi4096, hcont⟩ := hfr1 i hi hlive
      have hne_idx : p2.freeListHead.toNat ≠ i := by
        rw [hflhnat]
        intro he
        rw [← he] at hlive
        omega
      refine ⟨off, ?_, ?_⟩
      · show (p2.slots.set p2.freeListHead.toNat
            (SP_SlotEntry.mk (p1.freePtr - l) l))[i]? = _
        rw [List.getElem?_set_ne hne_idx, hsl2]
        exact hs1
      · show readBytes p2.bytes off.toNat (slotAt p i).length.toNat = _
        rw [hbytesFrame off hlo]
        exact hcont
    · intro hld
      refine ⟨p2.freeListHead, rfl, ?_⟩
      show SP_GetRecord { p2 with freeListHead := (slotAt p2 p2.freeListHead.toNat).offset, slots := p2.slots.set p2.freeListHead.toNat (SP_SlotEntry.mk (p1.freePtr - l) l) } p2.freeListHead = (SP_OK, some (d.take l.toNat, l))
      set q : SP_Page := { p2 with freeListHead := (slotAt p2 p2.freeListHead.toNat).offset, slots := p2.slots.set p2.freeListHead.toNat (SP_SlotEntry.mk (p1.freePtr - l) l) } with hq
      have hqsc : q.slotCount = p2.slotCount := rfl
      have hqslots : q.slots = p2.slots.set p2.freeListHead.toNat
          (SP_SlotEntry.mk (p1.freePtr - l) l) := rfl
      have hqbytes : q.bytes = p2.bytes := rfl
      have hbound : p2.freeListHead.toNat < p2.slots.length := by
        rw [hsl2, hslen1]; omega
      have hsq : slotAt q p2.freeListHead.toNat =
          SP_SlotEntry.mk (p1.freePtr - l) l := by
        simp only [slotAt, hqslots]
        rw [List.getElem?_set_self hbound]
        rfl
      have hlt : p2.freeListHead < q.slotCount := by
        rw [hqsc]; omega
      have hfin := SP_GetRecord_of_slot hneg hlt hsq hl0
      rw [hfin, hqbytes, hread hld]
  · -- directory full
    rw [hr] at hOK
    have hnegE : (SP_ERR_NOSPACE : Int) < 0 := by norm_num [SP_ERR_NOSPACE]
    rw [if_pos hnegE] at hOK
    exact absurd hOK (by norm_num [SP_ERR_NOSPACE, SP_OK])
  · -- fresh directory entry appended
    rw [hr] at hOK ⊢
    have hscnn : ¬ p2.slotCount < 0 := by omega
    rw [if_neg hscnn] at hOK ⊢
    have hidx : p2.slotCount.toNat = p2.slots.length := by
      rw [hsl2]; omega
    refine ⟨?_, ?_, ?_, ?_⟩
    · show p.slotCount ≤ p2.slotCount + 1
      omega
    · intro hpn
      show p2.freeListHead = SP_INVALID_SLOT
      exact hflh2.trans (hflh1.trans hpn)
    · intro i hi hlive
      obtain ⟨off, hs1, hlo, hhi4096, hcont⟩ := hfr1 i hi hlive
      have hi2 : i < p2.slots.length := by rw [hsl2, hslen1]; exact hi
      refine ⟨off, ?_, ?_⟩
      · show ((p2.slots ++ [(⟨0, 0⟩ : SP_SlotEntry)]).set p2.slotCount.toNat
            (SP_SlotEntry.mk (p1.freePtr - l) l))[i]? = _
        rw [List.getElem?_set_ne (by omega), List.getElem?_append_left hi2, hsl2]
        exact hs1
      · show readBytes p2.bytes off.toNat (slotAt p i).length.toNat = _
        rw [hbytesFrame off hlo]
        exact hcont
    · intro hld
      refine ⟨p2.slotCount, rfl, ?_⟩
      show SP_GetRecord { p2 with slotCount := p2.slotCount + 1, slots := (p2.slots ++ [(⟨0, 0⟩ : SP_SlotEntry)]).set p2.slotCount.toNat (SP_SlotEntry.mk (p1.freePtr - l) l) } p2.slotCount = (SP_OK, some (d.take l.toNat, l))
      set q : SP_Page := { p2 with slotCount := p2.slotCount + 1, slots := (p2.slots ++ [(⟨0, 0⟩ : SP_SlotEntry)]).set p2.slotCount.toNat (SP_SlotEntry.mk (p1.freePtr - l) l) } with hq
      have hqsc : q.slotCount = p2.slotCount + 1 := rfl
      have hqslots : q.slots = (p2.slots ++ [(⟨0, 0⟩ : SP_SlotEntry)]).set
          p2.slotCount.toNat (SP_SlotEntry.mk (p1.freePtr - l) l) := rfl
      have hqbytes : q.bytes = p2.bytes := rfl
      have hbound : p2.slotCount.toNat < (p2.slots ++ [(⟨0, 0⟩ : SP_SlotEntry)]).length := by
        rw [List.length_append]
        simp
        omega
      have hsq : slotAt q p2.slotCount.toNat =
          SP_SlotEntry.mk (p1.freePtr - l) l := by
        simp only [slotAt, hqslots]
        rw [List.getElem?_set_self hbound]
        rfl
      have hlt : p2.slotCount < q.slotCount := by
        rw [hqsc]; omega
      have hge0 : (0 : Int) ≤ p2.slotCount := by omega
      have hfin := SP_GetRecord_of_slot hge0 hlt hsq hl0
      rw [hfin, hqbytes, hread hld]

/-- A successful insert leaves every previously readable record readable
with the same bytes and length. -/
theorem insert_preserves_get {p : SP_Page} (hInv : SP_Inv p) (hflh : SP_FreeHeadOk p)
    {d : List Int} {l : Int} (hOK : (SP_InsertRecord p d l).1 = SP_OK)
    {i : Int} {b : List Int} {len : Int}
    (hget : SP_GetRecord p i = (SP_OK, some (b, len))) :
    SP_GetRecord (SP_InsertRecord p d l).2.1 i = (SP_OK, some (b, len)) := by
  rw [SP_GetRecord_eq_ok] at hget
  obtain ⟨hi0, hisc, hlive, hlen, hb⟩ := hget
  obtain ⟨hsc, _, hframe, _⟩ := SP_InsertRecord_frame hInv hflh d l hOK
  have hclp : p.slots.length = p.slotCount.toNat := hInv.2.2.1
  have hi2 : i.toNat < p.slots.length := by omega
  obtain ⟨off, hsl, hcont⟩ := hframe i.toNat hi2 hlive
  have hs : slotAt (SP_InsertRecord p d l).2.1 i.toNat =
      SP_SlotEntry.mk off (slotAt p i.toNat).length := slotAt_of_getElem? hsl
  have hfin := SP_GetRecord_of_slot hi0 (by omega) hs hlive
  rw [hfin, hcont, hlen, hb]

/-- C9: for every page satisfying the slotted-page invariants (including the
free-list-head invariant), if `SP_InsertRecord` succeeds then every slot id
that was readable before the call is still readable afterwards, with the same
byte content and length, even when the insertion compacted the page. -/
theorem C9_insert_preserves_existing_records
    (p : SP_Page) (d : List Int) (l : Int) (i : Int) (b : List Int) (len : Int)
    (hInv : SP_Inv p) (hflh : SP_FreeHeadOk p)
    (hOK : (SP_InsertRecord p d l).1 = SP_OK)
    (hget : SP_GetRecord p i = (SP_OK, some (b, len))) :
    SP_GetRecord (SP_InsertRecord p d l).2.1 i = (SP_OK, some (b, len)) :=
  insert_preserves_get hInv hflh hOK hget

/-- Witness for C9 on a concrete page: after inserting `[7]`, a second
insertion leaves slot `0` readable with the same content. -/
theorem C9_insert_preserves_existing_records_witness :
    SP_Inv ((SP_InsertRecord SP_InitPage [7] 1).2.1) ∧
    SP_FreeHeadOk ((SP_InsertRecord SP_InitPage [7] 1).2.1) ∧
    (SP_InsertRecord ((SP_InsertRecord SP_InitPage [7] 1).2.1) [8, 9] 2).1 = SP_OK ∧
    SP_GetRecord ((SP_InsertRecord SP_InitPage [7] 1).2.1) 0 = (SP_OK, some ([7], 1)) ∧
    SP_GetRecord
        ((SP_InsertRecord ((SP_InsertRecord SP_InitPage [7] 1).2.1) [8, 9] 2).2.1) 0 =
      (SP_OK, some ([7], 1)) := by
  have hget : SP_GetRecord ((SP_InsertRecord SP_InitPage [7] 1).2.1) 0 =
      (SP_OK, some ([7], 1)) := by
    obtain ⟨id, hid, hg⟩ :=
      (SP_InsertRecord_frame SP_InitPage_inv (Or.inl rfl) [7] 1 rfl).2.2.2 (by decide)
    have h0 : (SP_InsertRecord SP_InitPage [7] 1).2.2 = some 0 := rfl
    rw [h0] at hid
    have hid0 : id = (0 : Int) := (Option.some.inj hid).symm
    rw [hid0] at hg
    simpa using hg
  exact ⟨SP_InsertRecord_inv SP_InitPage_inv [7] 1, Or.inl rfl, rfl, hget,
    C9_insert_preserves_existing_records ((SP_InsertRecord SP_InitPage [7] 1).2.1)
      [8, 9] 2 0 [7] 1 (SP_InsertRecord_inv SP_InitPage_inv [7] 1) (Or.inl rfl) rfl hget⟩

/-- The whole of the round-trip law, proved by induction along the insertion
sequence: a successful run preserves every record already readable at the
start, and makes every inserted pair readable at its returned id. -/
theorem insertSeq_spec :
    ∀ (S : List (List Int × Int)) (p : SP_Page), SP_Inv p →
      p.freeListHead = SP_INVALID_SLOT →
      (∀ dl ∈ S, dl.1.length = dl.2.toNat) →
      ∀ q ids, insertSeq p S = some (q, ids) →
        (∀ (i : Int) (b : List Int) (len : Int),
          SP_GetRecord p i = (SP_OK, some (b, len)) →
          SP_GetRecord q i = (SP_OK, some (b, len))) ∧
        (∀ (k : Nat) (d : List Int) (l : Int), S[k]? = some (d, l) →
          ∃ id, ids[k]? = some id ∧ SP_GetRecord q id = (SP_OK, some (d, l)))
  | [], p, hInv, hnil, hlen, q, ids, hrun => by
    simp only [insertSeq, Option.some.injEq, Prod.mk.injEq] at hrun
    obtain ⟨hq, hids⟩ := hrun
    subst hq; subst hids
    refine ⟨fun i b len h => h, ?_⟩
    intro k d l hk
    simp at hk
  | dl :: rest, p, hInv, hnil, hlen, q, ids, hrun => by
    simp only [insertSeq] at hrun
    by_cases hok : (SP_InsertRecord p dl.1 dl.2).1 = SP_OK
    · rw [if_pos hok] at hrun
      obtain ⟨id, hid, hge⟩ := SP_InsertRecord_ok_some hok
      rw [hid, Option.some_bind, Option.map_eq_some'] at hrun
      obtain ⟨a, hrest, heq⟩ := hrun
      obtain ⟨q', ids'⟩ := a
      simp only [Prod.mk.injEq] at heq
      obtain ⟨hq, hids⟩ := heq
      subst hq
      subst hids
      have hframe := SP_InsertRecord_frame hInv (Or.inl hnil) dl.1 dl.2 hok
      have hInv' : SP_Inv (SP_InsertRecord p dl.1 dl.2).2.1 :=
        SP_InsertRecord_inv hInv dl.1 dl.2
      have hflh' : (SP_InsertRecord p dl.1 dl.2).2.1.freeListHead = SP_INVALID_SLOT :=
        hframe.2.1 hnil
      have hlenRest : ∀ dl' ∈ rest, dl'.1.length = dl'.2.toNat :=
        fun dl' hmem => hlen dl' (List.mem_cons_of_mem dl hmem)
      obtain ⟨ihFrame, ihAll⟩ := insertSeq_spec rest (SP_InsertRecord p dl.1 dl.2).2.1
        hInv' hflh' hlenRest q' ids' hrest
      refine ⟨?_, ?_⟩
      · intro i b len hget
        exact ihFrame i b len (insert_preserves_get hInv (Or.inl hnil) hok hget)
      · intro k d l hk
        cases k with
        | zero =>
          simp only [List.getElem?_cons_zero, Option.some.injEq] at hk
          have hld : dl.2.toNat ≤ dl.1.length :=
            le_of_eq (hlen dl (List.mem_cons_self dl rest)).symm
          obtain ⟨id0, hid0, hg0⟩ := hframe.2.2.2 hld
          have hideq : id0 = id := by
            rw [hid] at hid0
            exact (Option.some.inj hid0).symm
          have htake : dl.1.take dl.2.toNat = dl.1 := by
            rw [← hlen dl (List.mem_cons_self dl rest)]
            exact List.take_length dl.1
          rw [htake] at hg0
          refine ⟨id0, by rw [hideq]; simp, ?_⟩
          have hkeep := ihFrame id0 dl.1 dl.2 hg0
          rw [← hk]
          exact hkeep
        | succ k' =>
          simp only [List.getElem?_cons_succ] at hk
          obtain ⟨id', hids', hg'⟩ := ihAll k' d l hk
          exact ⟨id', by simpa using hids', hg'⟩
    · rw [if_neg hok] at hrun
      exact absurd hrun (by simp)

/-- C2: for every sequence `S` of (bytes, length) pairs that fits on one page
(every `SP_InsertRecord` after `SP_InitPage` returns `SP_OK` with a slot id,
which is what `insertSeq` returning `some` states), `SP_GetRecord` on each
returned slot id yields exactly the originally inserted bytes and length. -/
theorem C2_insert_sequence_round_trip (S : List (List Int × Int))
    (hlen : ∀ dl ∈ S, dl.1.length = dl.2.toNat)
    (hrun : (insertSeq SP_InitPage S).isSome = true) :
    ∀ (k : Nat) (d : List Int) (l : Int), S[k]? = some (d, l) →
      ∃ id, ((insertSeq SP_InitPage S).getD (SP_InitPage, [])).2[k]? = some id ∧
        SP_GetRecord ((insertSeq SP_InitPage S).getD (SP_InitPage, [])).1 id =
          (SP_OK, some (d, l)) := by
  obtain ⟨a, ha⟩ := Option.isSome_iff_exists.mp hrun
  obtain ⟨q, ids⟩ := a
  rw [ha]
  exact (insertSeq_spec S SP_InitPage SP_InitPage_inv rfl hlen q ids ha).2

/-- Witness for C2 on the two-record sequence `[([10, 20], 2), ([30], 1)]`. -/
theorem C2_insert_sequence_round_trip_witness :
    (∀ dl ∈ ([([10, 20], 2), ([30], 1)] : List (List Int × Int)),
      dl.1.length = dl.2.toNat) ∧
    (insertSeq SP_InitPage ([([10, 20], 2), ([30], 1)] : List (List Int × Int))).isSome
      = true ∧
    (∃ id,
      ((insertSeq SP_InitPage
          ([([10, 20], 2), ([30], 1)] : List (List Int × Int))).getD
        (SP_InitPage, [])).2[0]? = some id ∧
      SP_GetRecord
        ((insertSeq SP_InitPage
            ([([10, 20], 2), ([30], 1)] : List (List Int × Int))).getD
          (SP_InitPage, [])).1 id = (SP_OK, some ([10, 20], 2))) :=
  ⟨by decide, rfl,
    C2_insert_sequence_round_trip ([([10, 20], 2), ([30], 1)] : List (List Int × Int))
      (by decide) rfl 0 [10, 20] 2 rfl⟩

/-! ## Idempotence of compaction -/

theorem sumLens_congr_len {p p' : SP_Page}
    (h : ∀ i : Nat, (slotAt p' i).length = (slotAt p i).length) (order : List Nat) :
    sumLens p' order = sumLens p order := by
  unfold sumLens
  congr 1
  exact List.map_congr_left (fun i _ => h i)

theorem sumLens_perm (p : SP_Page) {o o' : List Nat} (h : List.Perm o o') :
    sumLens p o = sumLens p o' :=
  (h.map _).sum_eq

/-- When every slot of `order` already sits at its packed position (and the
running free pointer never hits the header clamp), the relocation loop is the
identity on the page. -/
theorem compactMoves_fixed :
    ∀ (order : List Nat) (p : SP_Page) (fp : Int),
      (∀ (k i : Nat), order[k]? = some i →
        (headerSize : Int) ≤ fp - sumLens p (order.take (k + 1)) ∧
        slotAt p i = SP_SlotEntry.mk (fp - sumLens p (order.take (k + 1)))
          (slotAt p i).length) →
      compactMoves p order fp = (p, fp - sumLens p order)
  | [], p, fp, _ => by
    simp [compactMoves, sumLens_nil]
  | i :: rest, p, fp, h => by
    have h0 := h 0 i (by simp)
    have hsum1 : sumLens p ((i :: rest).take 1) = (slotAt p i).length := by
      rw [List.take_succ_cons, List.take_zero, sumLens_cons, sumLens_nil]
      omega
    rw [hsum1] at h0
    obtain ⟨hcl0, hslot0⟩ := h0
    have hoffeq : (slotAt p i).offset = fp - (slotAt p i).length :=
      congrArg SP_SlotEntry.offset hslot0
    have hclamp : ¬ (fp - (slotAt p i).length < (headerSize : Int)) := by omega
    simp only [compactMoves]
    rw [if_neg hclamp, if_neg (not_not_intro hoffeq)]
    have hmkeq : SP_SlotEntry.mk (fp - (slotAt p i).length) (slotAt p i).length =
        slotAt p i := by
      rw [← hoffeq]
    rw [hmkeq]
    have hsets : p.slots.set i (slotAt p i) = p.slots := by
      by_cases hrange : i < p.slots.length
      · apply set_eq_self_of_getElem?
        simp [slotAt, List.getElem?_eq_getElem hrange]
      · exact List.set_eq_of_length_le (by omega)
    rw [hsets]
    show compactMoves p rest (fp - (slotAt p i).length) =
      (p, fp - sumLens p (i :: rest))
    have hrest : ∀ (k i' : Nat), rest[k]? = some i' →
        (headerSize : Int) ≤ fp - (slotAt p i).length -
          sumLens p (rest.take (k + 1)) ∧
        slotAt p i' = SP_SlotEntry.mk
          (fp - (slotAt p i).length - sumLens p (rest.take (k + 1)))
          (slotAt p i').length := by
      intro k i' hk
      obtain ⟨ha, hb⟩ := h (k + 1) i' (by simpa using hk)
      have hs2 : sumLens p ((i :: rest).take (k + 2)) =
          (slotAt p i).length + sumLens p (rest.take (k + 1)) := by
        rw [List.take_succ_cons, sumLens_cons]
      rw [hs2] at ha hb
      refine ⟨by omega, ?_⟩
      calc slotAt p i'
          = SP_SlotEntry.mk
              (fp - ((slotAt p i).length + sumLens p (rest.take (k + 1))))
              (slotAt p i').length := hb
        _ = SP_SlotEntry.mk
              (fp - (slotAt p i).length - sumLens p (rest.take (k + 1)))
              (slotAt p i').length := by
            congr 1
            ring
    rw [compactMoves_fixed rest p (fp - (slotAt p i).length) hrest, sumLens_cons]
    have harith : fp - (slotAt p i).length - sumLens p rest =
        fp - ((slotAt p i).length + sumLens p rest) := by ring
    rw [harith]

/-- A compacted page is a fixed point of `SP_CompactPage`: the second pass
finds every live record already at its packed address, moves nothing and
rewrites nothing. -/
theorem SP_CompactPage_fixed {p : SP_Page} (hInv : SP_Inv p) :
    SP_CompactPage (SP_CompactPage p) = SP_CompactPage p := by
  have co := SP_CompactPage_spec p hInv
  have hpos : ∀ i ∈ sortOrder p.slots (liveIdx p), 0 < (slotAt p i).length := by
    intro i hi
    obtain ⟨s, hs, hsl⟩ := order_live hInv i hi
    rw [slotAt_of_getElem? hs]
    exact hsl
  have hplaced : ∀ (k i : Nat), (sortOrder p.slots (liveIdx p))[k]? = some i →
      slotAt (SP_CompactPage p) i = SP_SlotEntry.mk
        ((PF_PAGE_SIZE : Int) - sumLens p ((sortOrder p.slots (liveIdx p)).take (k + 1)))
        (slotAt p i).length := by
    intro k i hk
    obtain ⟨s, hs, hs'⟩ := co.placed k i hk
    have hsa : slotAt p i = s := slotAt_of_getElem? hs
    rw [slotAt_of_getElem? hs', hsa]
  have hOmono : ∀ (k k' : Nat), k < k' → k' < (sortOrder p.slots (liveIdx p)).length →
      (PF_PAGE_SIZE : Int) - sumLens p ((sortOrder p.slots (liveIdx p)).take (k' + 1)) <
      (PF_PAGE_SIZE : Int) - sumLens p ((sortOrder p.slots (liveIdx p)).take (k + 1)) := by
    intro k k' hkk' hk'
    have hk'el : (sortOrder p.slots (liveIdx p))[k']? =
        some ((sortOrder p.slots (liveIdx p))[k']) := List.getElem?_eq_getElem hk'
    have hsucc := @sumLens_take_succ p (sortOrder p.slots (liveIdx p)) k'
      ((sortOrder p.slots (liveIdx p))[k']) hk'el
    have hmono := sumLens_take_mono hpos (show k + 1 ≤ k' from hkk')
    have hposk' := hpos ((sortOrder p.slots (liveIdx p))[k']) (List.getElem_mem hk')
    omega
  have hoffval : ∀ (k : Nat), (hk : k < (sortOrder p.slots (liveIdx p)).length) →
      (slotAt (SP_CompactPage p) ((sortOrder p.slots (liveIdx p))[k])).offset =
        (PF_PAGE_SIZE : Int) -
          sumLens p ((sortOrder p.slots (liveIdx p)).take (k + 1)) := by
    intro k hk
    rw [hplaced k _ (List.getElem?_eq_getElem hk)]
  have hinj : ∀ i ∈ liveIdx p, ∀ j ∈ liveIdx p, i ≠ j →
      (slotAt (SP_CompactPage p) i).offset ≠ (slotAt (SP_CompactPage p) j).offset := by
    intro i hi j hj hij
    obtain ⟨k, hk, hki⟩ := List.getElem_of_mem ((order_mem p i).mpr hi)
    obtain ⟨k', hk', hkj⟩ := List.getElem_of_mem ((order_mem p j).mpr hj)
    have hoi := hoffval k hk
    have hoj := hoffval k' hk'
    rw [hki] at hoi
    rw [hkj] at hoj
    have hkk : k ≠ k' := by
      intro he
      subst he
      rw [hki] at hkj
      exact hij hkj
    rcases Nat.lt_or_ge k k' with h1 | h2
    · have := hOmono k k' h1 hk'
      omega
    · have hlt : k' < k := by omega
      have := hOmono k' k hlt hk
      omega
  have hsorted₁ : (sortOrder p.slots (liveIdx p)).Pairwise (fun a b =>
      (slotAt (SP_CompactPage p) b).offset <
        (slotAt (SP_CompactPage p) a).offset) := by
    rw [List.pairwise_iff_getElem]
    intro k k' hk hk' hkk'
    have hoi := hoffval k hk
    have hoj := hoffval k' hk'
    have := hOmono k k' hkk' hk'
    omega
  have hpermLive : List.Perm (liveIdx (SP_CompactPage p)) (liveIdx p) := by
    rw [liveIdx_compact p hInv]
  have hperm : List.Perm
      (sortOrder (SP_CompactPage p).slots (liveIdx (SP_CompactPage p)))
      (sortOrder p.slots (liveIdx p)) :=
    ((sortOrder_perm (SP_CompactPage p).slots
      (liveIdx (SP_CompactPage p))).trans hpermLive).trans
      (sortOrder_perm p.slots (liveIdx p)).symm
  have hsorted₂ : (sortOrder (SP_CompactPage p).slots
      (liveIdx (SP_CompactPage p))).Pairwise (fun a b =>
      (slotAt (SP_CompactPage p) b).offset <
        (slotAt (SP_CompactPage p) a).offset) := by
    rw [List.pairwise_iff_getElem]
    intro k k' hk hk' hkk'
    have holen := sortOrder_length (SP_CompactPage p).slots (liveIdx (SP_CompactPage p))
    have hsorted := sortOrder_sorted (SP_CompactPage p).slots
      (liveIdx (SP_CompactPage p)) k k' hkk' (by omega)
    have hgd : ∀ m : Nat, (hm : m < (sortOrder (SP_CompactPage p).slots
        (liveIdx (SP_CompactPage p))).length) →
        (sortOrder (SP_CompactPage p).slots (liveIdx (SP_CompactPage p))).getD m 0 =
        (sortOrder (SP_CompactPage p).slots (liveIdx (SP_CompactPage p)))[m] := by
      intro m hm
      rw [List.getD_eq_getElem?_getD, List.getElem?_eq_getElem hm]
      rfl
    rw [hgd k hk, hgd k' hk'] at hsorted
    rw [keyOf_eq_offset, keyOf_eq_offset] at hsorted
    have hnd : (sortOrder (SP_CompactPage p).slots
        (liveIdx (SP_CompactPage p))).Nodup :=
      (sortOrder_perm (SP_CompactPage p).slots
        (liveIdx (SP_CompactPage p))).nodup_iff.mpr (liveIdx_nodup (SP_CompactPage p))
    have hne : (sortOrder (SP_CompactPage p).slots (liveIdx (SP_CompactPage p)))[k] ≠
        (sortOrder (SP_CompactPage p).slots (liveIdx (SP_CompactPage p)))[k'] := by
      intro he
      have := (List.Nodup.getElem_inj_iff hnd).mp he
      omega
    have hmema : (sortOrder (SP_CompactPage p).slots (liveIdx (SP_CompactPage p)))[k] ∈
        liveIdx p :=
      (order_mem p _).mp (hperm.mem_iff.mp (List.getElem_mem hk))
    have hmemb : (sortOrder (SP_CompactPage p).slots (liveIdx (SP_CompactPage p)))[k'] ∈
        liveIdx p :=
      (order_mem p _).mp (hperm.mem_iff.mp (List.getElem_mem hk'))
    have hneq := hinj _ hmema _ hmemb hne
    omega
  have horder : sortOrder (SP_CompactPage p).slots (liveIdx (SP_CompactPage p)) =
      sortOrder p.slots (liveIdx p) := by
    haveI : IsAntisymm Nat (fun a b =>
        (slotAt (SP_CompactPage p) b).offset <
          (slotAt (SP_CompactPage p) a).offset) :=
      ⟨fun a b h1 h2 => absurd (h1.trans h2) (lt_irrefl _)⟩
    exact List.eq_of_perm_of_sorted hperm hsorted₂ hsorted₁
  have hpack : ∀ (k i : Nat), (sortOrder p.slots (liveIdx p))[k]? = some i →
      (headerSize : Int) ≤ (PF_PAGE_SIZE : Int) -
        sumLens (SP_CompactPage p) ((sortOrder p.slots (liveIdx p)).take (k + 1)) ∧
      slotAt (SP_CompactPage p) i = SP_SlotEntry.mk
        ((PF_PAGE_SIZE : Int) -
          sumLens (SP_CompactPage p) ((sortOrder p.slots (liveIdx p)).take (k + 1)))
        (slotAt (SP_CompactPage p) i).length := by
    intro k i hk
    have hsums : sumLens (SP_CompactPage p) ((sortOrder p.slots (liveIdx p)).take (k + 1)) =
        sumLens p ((sortOrder p.slots (liveIdx p)).take (k + 1)) :=
      sumLens_congr_len co.lenpres _
    constructor
    · rw [hsums]
      have hscnn : (0 : Int) ≤ (SP_CompactPage p).slotCount *
          (slotEntrySize : Int) :=
        mul_nonneg co.inv.2.1 (by norm_num [slotEntrySize])
      have h8 := co.inv.2.2.2.2.1
      have hfp := co.fptr
      have hperm1 : sumLens p (sortOrder p.slots (liveIdx p)) =
          sumLens p (liveIdx p) :=
        sumLens_perm p (sortOrder_perm p.slots (liveIdx p))
      have htle := sumLens_take_le hpos (k + 1)
      omega
    · rw [hsums, co.lenpres i]
      exact hplaced k i hk
  have hmoves := compactMoves_fixed (sortOrder p.slots (liveIdx p))
    (SP_CompactPage p) (PF_PAGE_SIZE : Int) hpack
  have hfpeq : (PF_PAGE_SIZE : Int) -
      sumLens (SP_CompactPage p) (sortOrder p.slots (liveIdx p)) =
      (SP_CompactPage p).freePtr := by
    rw [sumLens_congr_len co.lenpres (sortOrder p.slots (liveIdx p)),
      sumLens_perm p (sortOrder_perm p.slots (liveIdx p))]
    exact co.fptr.symm
  show ({ (compactMoves (SP_CompactPage p)
      (sortOrder (SP_CompactPage p).slots (liveIdx (SP_CompactPage p)))
      (PF_PAGE_SIZE : Int)).1 with
    freePtr := (compactMoves (SP_CompactPage p)
      (sortOrder (SP_CompactPage p).slots (liveIdx (SP_CompactPage p)))
      (PF_PAGE_SIZE : Int)).2 } : SP_Page) = SP_CompactPage p
  rw [horder, hmoves]
  show ({ SP_CompactPage p with
    freePtr := (PF_PAGE_SIZE : Int) -
      sumLens (SP_CompactPage p) (sortOrder p.slots (liveIdx p)) } : SP_Page) =
    SP_CompactPage p
  rw [hfpeq]

/-- C7: compaction is idempotent — on an invariant page, compacting twice
yields exactly the page obtained by compacting once (the whole buffer, hence
in particular the header, directory and live records); and compaction keeps
the slot count and the length stored at every slot id, changing only
offsets. -/
theorem C7_compaction_idempotent (p : SP_Page) (hInv : SP_Inv p) :
    SP_CompactPage (SP_CompactPage p) = SP_CompactPage p ∧
    (SP_CompactPage p).slotCount = p.slotCount ∧
    (SP_CompactPage p).slots.length = p.slots.length ∧
    (∀ i : Nat, (slotAt (SP_CompactPage p) i).length = (slotAt p i).length) :=
  ⟨SP_CompactPage_fixed hInv, (SP_CompactPage_spec p hInv).sc,
    (SP_CompactPage_spec p hInv).slen, (SP_CompactPage_spec p hInv).lenpres⟩

/-- Witness for C7 at the freshly initialized page. -/
theorem C7_compaction_idempotent_witness :
    SP_Inv SP_InitPage ∧
    (SP_CompactPage (SP_CompactPage SP_InitPage) = SP_CompactPage SP_InitPage ∧
    (SP_CompactPage SP_InitPage).slotCount = SP_InitPage.slotCount ∧
    (SP_CompactPage SP_InitPage).slots.length = SP_InitPage.slots.length ∧
    (∀ i : Nat, (slotAt (SP_CompactPage SP_InitPage) i).length =
      (slotAt SP_InitPage i).length)) :=
  ⟨SP_InitPage_inv, C7_compaction_idempotent SP_InitPage SP_InitPage_inv⟩

/-! ## Cursor reset of `SP_GetNextRecord` -/

theorem scanFrom_eq_none (p : SP_Page) (i : Nat)
    (h : ∀ j : Nat, i ≤ j → j < p.slotCount.toNat → (slotAt p j).length ≤ 0) :
    scanFrom p i = none := by
  rw [scanFrom]
  by_cases hlt : i < p.slotCount.toNat
  · rw [dif_pos hlt]
    have hdead := h i le_rfl hlt
    rw [if_neg (by omega)]
    exact scanFrom_eq_none p (i + 1) (fun j hj hjlt => h j (by omega) hjlt)
  · rw [dif_neg hlt]
termination_by p.slotCount.toNat - i

/-- C10: when the scan of `SP_GetNextRecord` finds no live slot at index
`cursor + 1` or beyond, the call returns `SP_ERR_EMPTY` and leaves `-1` in
the cursor, so the next call with that cursor starts scanning at slot 0. -/
theorem C10_exhausted_scan_resets_cursor (p : SP_Page) (cursor : Int)
    (h : ∀ i : Nat, cursorStart cursor ≤ i → i < p.slotCount.toNat →
      (slotAt p i).length ≤ 0) :
    (SP_GetNextRecord p cursor).1 = SP_ERR_EMPTY ∧
    (SP_GetNextRecord p cursor).2.1 = -1 ∧
    cursorStart (SP_GetNextRecord p cursor).2.1 = 0 := by
  have hs : scanFrom p (cursorStart cursor) = none :=
    scanFrom_eq_none p _ (fun j hj hjlt => h j hj hjlt)
  simp only [SP_GetNextRecord, hs]
  exact ⟨trivial, trivial, rfl⟩

/-- Witness for C10: after inserting one record and reading it (cursor 0),
the follow-up call is exhausted, reports `SP_ERR_EMPTY`, and resets the
cursor to `-1`, which restarts the scan at slot 0. -/
theorem C10_exhausted_scan_resets_cursor_witness :
    (∀ i : Nat, cursorStart 0 ≤ i →
      i < ((SP_InsertRecord SP_InitPage [7] 1).2.1).slotCount.toNat →
      (slotAt ((SP_InsertRecord SP_InitPage [7] 1).2.1) i).length ≤ 0) ∧
    ((SP_GetNextRecord ((SP_InsertRecord SP_InitPage [7] 1).2.1) 0).1 =
        SP_ERR_EMPTY ∧
      (SP_GetNextRecord ((SP_InsertRecord SP_InitPage [7] 1).2.1) 0).2.1 = -1 ∧
      cursorStart ((SP_GetNextRecord ((SP_InsertRecord SP_InitPage [7] 1).2.1) 0).2.1)
        = 0) := by
  have hh : ∀ i : Nat, cursorStart 0 ≤ i →
      i < ((SP_InsertRecord SP_InitPage [7] 1).2.1).slotCount.toNat →
      (slotAt ((SP_InsertRecord SP_InitPage [7] 1).2.1) i).length ≤ 0 := by
    intro i h1 h2
    have hsc : ((SP_InsertRecord SP_InitPage [7] 1).2.1).slotCount = 1 := rfl
    rw [hsc] at h2
    have hcs : cursorStart 0 = 1 := rfl
    rw [hcs] at h1
    omega
  exact ⟨hh,
    C10_exhausted_scan_resets_cursor ((SP_InsertRecord SP_InitPage [7] 1).2.1) 0 hh⟩

/-! ## The index-benchmark exit code (C3) -/

/-- C3: the index-benchmark driver exits with code 0 even when the first
build phase fails — the failure path is `goto cleanup`, and the `cleanup`
label returns 0.  The spec's "nonzero exit code on any failure" does not hold
for the build/query phases. -/
theorem C3_build_failure_still_exits_zero :
    indexBenchmarkExitCode false true true true true true = 0 ∧
    indexBenchmarkExitCode true true true true true true = 0 := by
  constructor <;> rfl

/-! ## The loader's line handling (C8) -/

/-- C8 counterexample: the line `" 1"` (space, digit one).  The spec's
whitespace-trim leaves `"1"`, non-empty and digit-initial, so the claim says
the line is kept; the loader trims only trailing newline bytes, sees the
leading space, and skips it. -/
theorem C8_counterexample :
    loaderLineAction [32, 49] = LineAction.skip ∧
    trimWhitespace [32, 49] = [49] ∧
    (trimWhitespace [32, 49]).length ≠ 0 ∧
    isDigitB ((trimWhitespace [32, 49]).headD 0) = true := by
  refine ⟨by decide, by decide, by decide, by decide⟩

/-- C8 (amended): the loader trims only trailing `'\n'`/`'\r'` bytes; it
skips a line exactly when that trimmed line is empty or does not start with
a digit, and every remaining line below the length bound is packed as
exactly one record holding the trimmed bytes. -/
theorem C8_loader_line_handling (line : List Int) :
    (loaderLineAction line = LineAction.skip ↔
      (trimTrailingCRLF line).length = 0 ∨
        isDigitB ((trimTrailingCRLF line).headD 0) = false) ∧
    ((trimTrailingCRLF line).length ≠ 0 →
      isDigitB ((trimTrailingCRLF line).headD 0) = true →
      (trimTrailingCRLF line).length < 32760 →
      loaderLineAction line =
        LineAction.record (trimTrailingCRLF line)
          ((trimTrailingCRLF line).length : Int)) := by
  constructor
  · unfold loaderLineAction
    by_cases h0 : (trimTrailingCRLF line).length = 0
    · rw [if_pos h0]
      exact iff_of_true rfl (Or.inl h0)
    rw [if_neg h0]
    by_cases h1 : isDigitB ((trimTrailingCRLF line).headD 0) = false
    · rw [if_pos h1]
      exact iff_of_true rfl (Or.inr h1)
    rw [if_neg h1]
    by_cases h2 : 32760 ≤ (trimTrailingCRLF line).length
    · rw [if_pos h2]
      exact iff_of_false (by simp) (fun hor => hor.elim h0 h1)
    · rw [if_neg h2]
      exact iff_of_false (by simp) (fun hor => hor.elim h0 h1)
  · intro hne hd hlen
    unfold loaderLineAction
    rw [if_neg hne, if_neg (by simp only [hd]; decide), if_neg (by omega)]

/-- Witness for C8 on the line `"12"`: kept and packed as one record. -/
theorem C8_loader_line_handling_witness :
    (trimTrailingCRLF [49, 50]).length ≠ 0 ∧
    isDigitB ((trimTrailingCRLF [49, 50]).headD 0) = true ∧
    (trimTrailingCRLF [49, 50]).length < 32760 ∧
    loaderLineAction [49, 50] =
      LineAction.record (trimTrailingCRLF [49, 50])
        ((trimTrailingCRLF [49, 50]).length : Int) :=
  ⟨by decide, by decide, by decide,
    (C8_loader_line_handling [49, 50]).2 (by decide) (by decide) (by decide)⟩

/-! ## The loader's fresh-page retry (C4) -/

/-- Inverting an accepting run of the loader's line handling. -/
theorem loaderLineAction_record {line data : List Int} {l : Int}
    (h : loaderLineAction line = LineAction.record data l) :
    data = trimTrailingCRLF line ∧ l = ((trimTrailingCRLF line).length : Int) ∧
    0 < (trimTrailingCRLF line).length ∧ (trimTrailingCRLF line).length < 32760 := by
  unfold loaderLineAction at h
  by_cases h0 : (trimTrailingCRLF line).length = 0
  · rw [if_pos h0] at h
    exact absurd h (by simp)
  rw [if_neg h0] at h
  by_cases h1 : isDigitB ((trimTrailingCRLF line).headD 0) = false
  · rw [if_pos h1] at h
    exact absurd h (by simp)
  rw [if_neg h1] at h
  by_cases h2 : 32760 ≤ (trimTrailingCRLF line).length
  · rw [if_pos h2] at h
    exact absurd h (by simp)
  rw [if_neg h2] at h
  simp only [LineAction.record.injEq] at h
  exact ⟨h.1.symm, h.2.symm, by omega, by omega⟩

/-- Any record of length `1 ≤ l ≤ 4084` fits a freshly initialized page. -/
theorem fresh_page_insert_ok (d : List Int) (l : Int) (h1 : 0 < l)
    (h2 : l ≤ 4084) :
    (SP_InsertRecord SP_InitPage d l).1 = SP_OK := by
  have h4 : (slotEntrySize : Int) = 4 := rfl
  have h8 : (headerSize : Int) = 8 := rfl
  have hflh : SP_InitPage.freeListHead = SP_INVALID_SLOT := rfl
  have hfs : SP_PageFreeSpace SP_InitPage = 4088 := rfl
  have hfp : SP_InitPage.freePtr = (4096 : Int) := rfl
  simp only [SP_InsertRecord]
  rw [if_neg (show ¬ l ≤ 0 by omega)]
  set nd := l + (if SP_InitPage.freeListHead = SP_INVALID_SLOT then
    (slotEntrySize : Int) else 0) with hnd
  have hndval : nd = l + (slotEntrySize : Int) := by rw [hnd, if_pos hflh]
  have hes : SP_EnsureSpace SP_InitPage nd = (SP_OK, SP_InitPage) := by
    simp only [SP_EnsureSpace]
    rw [if_pos (by omega)]
  by_cases hrc : (SP_EnsureSpace SP_InitPage nd).1 ≠ SP_OK
  · rw [hes] at hrc
    simp at hrc
  rw [if_neg hrc]
  by_cases hdest : (SP_EnsureSpace SP_InitPage nd).2.freePtr - l < (headerSize : Int)
  · rw [hes] at hdest
    have hdest' : SP_InitPage.freePtr - l < (headerSize : Int) := hdest
    omega
  rw [if_neg hdest]
  set p1 := (SP_EnsureSpace SP_InitPage nd).2 with hp1
  set p2 : SP_Page := { p1 with
      bytes := writeBytes p1.bytes (p1.freePtr - l).toNat (d.take l.toNat),
      freePtr := p1.freePtr - l } with hp2
  have hflh2 : p2.freeListHead = SP_INVALID_SLOT := by
    show p1.freeListHead = SP_INVALID_SLOT
    rw [hp1, hes]
    rfl
  have hsc2 : p2.slotCount = (0 : Int) := by
    show p1.slotCount = (0 : Int)
    rw [hp1, hes]
    rfl
  rcases SP_ReserveSlot_cases p2 with ⟨hne, hr⟩ | ⟨_, hmax, hr⟩ | ⟨_, _, hr⟩
  · exact absurd hflh2 hne
  · have hms : (SP_MAX_SLOTS : Int) = 1022 := rfl
    omega
  · rw [hr]
    rw [if_neg (show ¬ p2.slotCount < 0 by omega)]

/-- A record of length 4085 or more cannot enter a freshly initialized page:
even after the (vacuous) compaction the directory–heap gap holds only 4088
bytes, one slot entry included. -/
theorem overfull_fresh_page_insert (d : List Int) (l : Int) (hl : 4085 ≤ l) :
    (SP_InsertRecord SP_InitPage d l).1 = SP_ERR_NOSPACE := by
  have h4 : (slotEntrySize : Int) = 4 := rfl
  have h8 : (headerSize : Int) = 8 := rfl
  have hflh : SP_InitPage.freeListHead = SP_INVALID_SLOT := rfl
  have hfs : SP_PageFreeSpace SP_InitPage = 4088 := rfl
  have hP : (PF_PAGE_SIZE : Int) = 4096 := rfl
  have co := SP_CompactPage_spec SP_InitPage SP_InitPage_inv
  have hlive : liveIdx SP_InitPage = [] := rfl
  have hfptr : (SP_CompactPage SP_InitPage).freePtr = 4096 := by
    rw [co.fptr, hlive, sumLens_nil, hP]
    norm_num
  have hsc0 : (SP_CompactPage SP_InitPage).slotCount = 0 := by
    rw [co.sc]
    rfl
  have hfs2 : SP_PageFreeSpace (SP_CompactPage SP_InitPage) = 4088 := by
    unfold SP_PageFreeSpace
    rw [hfptr, hsc0, h4, h8]
    norm_num
  simp only [SP_InsertRecord]
  rw [if_neg (show ¬ l ≤ 0 by omega)]
  set nd := l + (if SP_InitPage.freeListHead = SP_INVALID_SLOT then
    (slotEntrySize : Int) else 0) with hnd
  have hndval : nd = l + (slotEntrySize : Int) := by rw [hnd, if_pos hflh]
  have hes : SP_EnsureSpace SP_InitPage nd =
      (SP_ERR_NOSPACE, SP_CompactPage SP_InitPage) := by
    simp only [SP_EnsureSpace]
    rw [if_neg (by omega), if_neg (by omega)]
  rw [if_pos (by rw [hes]; norm_num [SP_ERR_NOSPACE, SP_OK])]

/-- C4 counterexample: a 4085-byte digit line is below the loader's 32760
bound, yet its retried insertion into a pristine page fails with
`SP_ERR_NOSPACE` (a page fits at most `4096 - 8 - 4 = 4084` record bytes),
so the loader aborts. -/
theorem C4_counterexample :
    (4085 : Int) < 32760 ∧
    (SP_InsertRecord SP_InitPage (List.replicate 4085 49) 4085).1 =
      SP_ERR_NOSPACE :=
  ⟨by decide, overfull_fresh_page_insert (List.replicate 4085 49) 4085 (by norm_num)⟩

/-- C4 (amended): for a line the loader accepts whose record length is at
most 4084, the retried `SP_InsertRecord` on a freshly `SP_InitPage`-ed page
returns `SP_OK`.  (The loader's own bound of 32760 is too weak: lengths
4085–32759 are accepted yet cannot fit any page.) -/
theorem C4_retry_on_fresh_page (line data : List Int) (l : Int)
    (hacc : loaderLineAction line = LineAction.record data l)
    (hfit : l ≤ 4084) :
    (SP_InsertRecord SP_InitPage data l).1 = SP_OK := by
  obtain ⟨_, hl, hpos, _⟩ := loaderLineAction_record hacc
  exact fresh_page_insert_ok data l (by omega) hfit

/-- Witness for C4 on the line `"12"`. -/
theorem C4_retry_on_fresh_page_witness :
    loaderLineAction [49, 50] =
      LineAction.record (trimTrailingCRLF [49, 50])
        ((trimTrailingCRLF [49, 50]).length : Int) ∧
    ((trimTrailingCRLF [49, 50]).length : Int) ≤ 4084 ∧
    (SP_InsertRecord SP_InitPage (trimTrailingCRLF [49, 50])
      ((trimTrailingCRLF [49, 50]).length : Int)).1 = SP_OK :=
  ⟨by decide, by decide,
    C4_retry_on_fresh_page [49, 50] (trimTrailingCRLF [49, 50])
      ((trimTrailingCRLF [49, 50]).length : Int) (by decide) (by decide)⟩

/-! ## Counting live records, and the cursor-scan loops (C5) -/

theorem countLiveFrom_stop (p : SP_Page) (i : Nat) (h : ¬ i < p.slotCount.toNat) :
    countLiveFrom p i = 0 := by
  rw [countLiveFrom, dif_neg h]

theorem countLiveFrom_step (p : SP_Page) (i : Nat) (h : i < p.slotCount.toNat) :
    countLiveFrom p i =
      (if 0 < (slotAt p i).length then 1 else 0) + countLiveFrom p (i + 1) := by
  conv_lhs => rw [countLiveFrom]
  rw [dif_pos h]

theorem countLiveFrom_live (p : SP_Page) (i : Nat) (h : i < p.slotCount.toNat)
    (hlive : 0 < (slotAt p i).length) :
    countLiveFrom p i = countLiveFrom p (i + 1) + 1 := by
  rw [countLiveFrom_step p i h, if_pos hlive]
  omega

theorem countLiveFrom_dead (p : SP_Page) (i : Nat) (h : i < p.slotCount.toNat)
    (hdead : ¬ 0 < (slotAt p i).length) :
    countLiveFrom p i = countLiveFrom p (i + 1) := by
  rw [countLiveFrom_step p i h, if_neg hdead]
  omega

theorem countLiveFrom_le (p : SP_Page) (i : Nat) :
    countLiveFrom p i ≤ p.slotCount.toNat - i := by
  by_cases h : i < p.slotCount.toNat
  · rw [countLiveFrom_step p i h]
    have := countLiveFrom_le p (i + 1)
    split <;> omega
  · rw [countLiveFrom_stop p i h]
    omega
termination_by p.slotCount.toNat - i

theorem scanFrom_none_count (p : SP_Page) (i : Nat)
    (h : scanFrom p i = none) : countLiveFrom p i = 0 := by
  rw [scanFrom] at h
  by_cases hlt : i < p.slotCount.toNat
  · rw [dif_pos hlt] at h
    by_cases hlive : 0 < (slotAt p i).length
    · rw [if_pos hlive] at h
      exact absurd h (by simp)
    · rw [if_neg hlive] at h
      rw [countLiveFrom_dead p i hlt hlive]
      exact scanFrom_none_count p (i + 1) h
  · exact countLiveFrom_stop p i hlt
termination_by p.slotCount.toNat - i

theorem scanFrom_some_spec (p : SP_Page) (i j : Nat)
    (h : scanFrom p i = some j) :
    i ≤ j ∧ j < p.slotCount.toNat ∧ 0 < (slotAt p j).length ∧
    (∀ m : Nat, i ≤ m → m < j → ¬ 0 < (slotAt p m).length) ∧
    countLiveFrom p i = countLiveFrom p (j + 1) + 1 := by
  rw [scanFrom] at h
  by_cases hlt : i < p.slotCount.toNat
  · rw [dif_pos hlt] at h
    by_cases hlive : 0 < (slotAt p i).length
    · rw [if_pos hlive] at h
      obtain rfl : i = j := Option.some.inj h
      refine ⟨le_rfl, hlt, hlive, fun m hm hm' => absurd (lt_of_le_of_lt hm hm')
        (lt_irrefl i), ?_⟩
      exact countLiveFrom_live p i hlt hlive
    · rw [if_neg hlive] at h
      obtain ⟨h1, h2, h3, h4, h5⟩ := scanFrom_some_spec p (i + 1) j h
      refine ⟨by omega, h2, h3, ?_, ?_⟩
      · intro m him hmj
        by_cases hmi : m = i
        · rw [hmi]
          exact hlive
        · exact h4 m (by omega) hmj
      · rw [countLiveFrom_dead p i hlt hlive, h5]
  · rw [dif_neg hlt] at h
    exact absurd h (by simp)
termination_by p.slotCount.toNat - i

theorem countLiveFrom_dead_prefix (q : SP_Page) (i i' : Nat) (hle : i ≤ i')
    (hdead : ∀ m : Nat, i ≤ m → m < i' → ¬ 0 < (slotAt q m).length) :
    countLiveFrom q i = countLiveFrom q i' := by
  by_cases heq : i = i'
  · rw [heq]
  · have hlt : i < i' := by omega
    by_cases hsc : i < q.slotCount.toNat
    · rw [countLiveFrom_dead q i hsc (hdead i le_rfl hlt)]
      exact countLiveFrom_dead_prefix q (i + 1) i' (by omega)
        (fun m hm hm' => hdead m (by omega) hm')
    · rw [countLiveFrom_stop q i hsc, countLiveFrom_stop q i' (by omega)]
termination_by i' - i

theorem countLiveFrom_congr {p q : SP_Page} (hsc : q.slotCount = p.slotCount)
    (i : Nat)
    (hlen : ∀ m : Nat, i ≤ m → m < p.slotCount.toNat →
      (slotAt q m).length = (slotAt p m).length) :
    countLiveFrom q i = countLiveFrom p i := by
  by_cases h : i < p.slotCount.toNat
  · have hq : i < q.slotCount.toNat := by omega
    rw [countLiveFrom_step q i hq, countLiveFrom_step p i h, hlen i le_rfl h,
      countLiveFrom_congr hsc (i + 1) (fun m hm hm' => hlen m (by omega) hm')]
  · rw [countLiveFrom_stop q i (by omega), countLiveFrom_stop p i h]
termination_by p.slotCount.toNat - i

theorem cursorStart_neg_one : cursorStart (-1) = 0 := rfl

theorem cursorStart_natCast (j : Nat) : cursorStart (j : Int) = j + 1 := by
  unfold cursorStart
  rw [if_neg (by omega)]
  omega

theorem SP_GetNextRecord_cases (p : SP_Page) (cursor : Int) :
    (∃ j : Nat, scanFrom p (cursorStart cursor) = some j ∧
      SP_GetNextRecord p cursor = (SP_OK, (j : Int),
        some (readBytes p.bytes (slotAt p j).offset.toNat (slotAt p j).length.toNat,
          (slotAt p j).length))) ∨
    (scanFrom p (cursorStart cursor) = none ∧
      SP_GetNextRecord p cursor = (SP_ERR_EMPTY, -1, none)) := by
  rcases hs : scanFrom p (cursorStart cursor) with _ | j
  · right
    exact ⟨rfl, by simp only [SP_GetNextRecord, hs]⟩
  · left
    exact ⟨j, rfl, by simp only [SP_GetNextRecord, hs]⟩

theorem SP_DeleteRecord_live (p : SP_Page) (j : Nat) (hj : j < p.slotCount.toNat)
    (hlive : 0 < (slotAt p j).length) :
    (SP_DeleteRecord p (j : Int)).1 = SP_OK ∧
    (SP_DeleteRecord p (j : Int)).2.slotCount = p.slotCount ∧
    (slotAt (SP_DeleteRecord p (j : Int)).2 j).length ≤ 0 ∧
    (∀ m : Nat, m ≠ j → slotAt (SP_DeleteRecord p (j : Int)).2 m = slotAt p m) := by
  have hrange : j < p.slots.length := by
    by_contra hge
    have hnone : p.slots[j]? = none := List.getElem?_eq_none (by omega)
    unfold slotAt at hlive
    rw [hnone] at hlive
    simp at hlive
  have htn : ((j : Int)).toNat = j := by omega
  simp only [SP_DeleteRecord]
  rw [if_neg (by push_neg; omega)]
  rw [htn]
  rw [if_neg (by omega)]
  refine ⟨rfl, rfl, ?_, ?_⟩
  · show (((p.slots.set j (SP_SlotEntry.mk p.freeListHead (-1)))[j]?).getD ⟨0, 0⟩).length ≤ 0
    rw [List.getElem?_set_self hrange]
    norm_num
  · intro m hmj
    show ((p.slots.set j (SP_SlotEntry.mk p.freeListHead (-1)))[m]?).getD ⟨0, 0⟩ =
      slotAt p m
    rw [List.getElem?_set_ne (Ne.symm hmj)]
    rfl

theorem scanLoop_spec :
    ∀ (fuel : Nat) (p : SP_Page) (cursor count : Int),
      countLiveFrom p (cursorStart cursor) ≤ fuel →
      scanLoop fuel p cursor count =
        count + (countLiveFrom p (cursorStart cursor) : Int)
  | 0, p, cursor, count, hle => by
    have h0 : countLiveFrom p (cursorStart cursor) = 0 := by omega
    rw [h0]
    simp [scanLoop]
  | Nat.succ fuel, p, cursor, count, hle => by
    rcases SP_GetNextRecord_cases p cursor with ⟨j, hs, hgn⟩ | ⟨hs, hgn⟩
    · obtain ⟨hij, hjlt, hjlive, hpre, hcnt⟩ := scanFrom_some_spec p _ j hs
      simp only [scanLoop]
      rw [hgn, if_pos rfl]
      rw [scanLoop_spec fuel p (j : Int) (count + 1)
        (by rw [cursorStart_natCast]; omega)]
      rw [cursorStart_natCast, hcnt]
      push_cast
      ring
    · have h0 := scanFrom_none_count p _ hs
      simp only [scanLoop]
      rw [hgn, if_neg (by norm_num [SP_ERR_EMPTY, SP_OK]), h0]
      simp

/-- Helpers for the integer floor-division steps of the counter. -/
theorem succ_ediv_of_emod_ne (c k : Int) (hk : 0 < k) (h : (c + 1) % k ≠ 0) :
    (c + 1) / k = c / k := by
  have hr0 : 0 ≤ c % k := Int.emod_nonneg c (by omega)
  have hrk : c % k < k := Int.emod_lt_of_pos c hk
  have hdecomp : c % k + k * (c / k) = c := by
    have := Int.ediv_add_emod c k
    omega
  have hlt : c % k + 1 < k := by
    by_contra hge
    have heqk : c % k + 1 = k := by omega
    have h1 : c + 1 = k * (c / k + 1) := by linear_combination heqk - hdecomp
    rw [h1, Int.mul_emod_right] at h
    exact h rfl
  have h2 : c + 1 = (c % k + 1) + k * (c / k) := by linear_combination - hdecomp
  rw [h2, Int.add_mul_ediv_left _ _ (show k ≠ 0 by omega),
    Int.ediv_eq_zero_of_lt (by omega) hlt]
  omega

theorem succ_ediv_of_emod_eq (c k : Int) (hk : 0 < k) (h : (c + 1) % k = 0) :
    (c + 1) / k = c / k + 1 := by
  have hr0 : 0 ≤ c % k := Int.emod_nonneg c (by omega)
  have hrk : c % k < k := Int.emod_lt_of_pos c hk
  have hdecomp : c % k + k * (c / k) = c := by
    have := Int.ediv_add_emod c k
    omega
  have heqk : c % k + 1 = k := by
    by_contra hne
    have hlt : c % k + 1 < k := by omega
    have h2 : c + 1 = (c % k + 1) + k * (c / k) := by linear_combination - hdecomp
    rw [h2, Int.add_mul_emod_self_left,
      Int.emod_eq_of_lt (by omega) hlt] at h
    omega
  have h3 : c + 1 = k * (c / k + 1) := by linear_combination heqk - hdecomp
  rw [h3, Int.mul_ediv_cancel_left _ (show k ≠ 0 by omega)]

theorem deleteLoop_spec :
    ∀ (fuel : Nat) (p : SP_Page) (cursor counter deleted k : Int),
      0 < k → 0 ≤ counter →
      countLiveFrom p (cursorStart cursor) < fuel →
      ∃ p' : SP_Page,
        deleteLoop k fuel p cursor counter deleted =
          (p', counter + (countLiveFrom p (cursorStart cursor) : Int),
            deleted + ((counter + (countLiveFrom p (cursorStart cursor) : Int)) / k
              - counter / k)) ∧
        p'.slotCount = p.slotCount ∧
        (∀ m : Nat, m < cursorStart cursor → slotAt p' m = slotAt p m) ∧
        (countLiveFrom p' (cursorStart cursor) : Int) =
          (countLiveFrom p (cursorStart cursor) : Int) -
            ((counter + (countLiveFrom p (cursorStart cursor) : Int)) / k
              - counter / k)
  | 0, p, cursor, counter, deleted, k, hk, hc, hfuel => absurd hfuel (by omega)
  | Nat.succ fuel, p, cursor, counter, deleted, k, hk, hc, hfuel => by
    rcases SP_GetNextRecord_cases p cursor with ⟨j, hs, hgn⟩ | ⟨hs, hgn⟩
    · obtain ⟨hij, hjlt, hjlive, hpre, hcnt⟩ := scanFrom_some_spec p _ j hs
      simp only [deleteLoop]
      rw [hgn, if_pos rfl]
      dsimp only
      by_cases hdiv : 0 < k ∧ (counter + 1) % k = 0
      · rw [if_pos hdiv]
        obtain ⟨hdOK, hdsc, hddead, hdother⟩ := SP_DeleteRecord_live p j hjlt hjlive
        rw [if_pos hdOK]
        have hcntd : countLiveFrom (SP_DeleteRecord p (j : Int)).2 (j + 1) =
            countLiveFrom p (j + 1) := by
          apply countLiveFrom_congr hdsc
          intro m hm hmlt
          rw [hdother m (by omega)]
        obtain ⟨p', heq, hsc', hbelow, hcount'⟩ :=
          deleteLoop_spec fuel (SP_DeleteRecord p (j : Int)).2 (j : Int)
            (counter + 1) (deleted + 1) k hk (by omega)
            (by rw [cursorStart_natCast, hcntd]; omega)
        rw [cursorStart_natCast] at heq hbelow hcount'
        rw [hcntd] at heq hcount'
        have hdivk : (counter + 1) / k = counter / k + 1 :=
          succ_ediv_of_emod_eq counter k hk hdiv.2
        have hnum : counter + 1 + (countLiveFrom p (j + 1) : Int) =
            counter + (countLiveFrom p (cursorStart cursor) : Int) := by
          rw [hcnt]
          push_cast
          ring
        refine ⟨p', ?_, by rw [hsc', hdsc], ?_, ?_⟩
        · rw [heq, hnum]
          have hc2 : deleted + 1 +
              ((counter + (countLiveFrom p (cursorStart cursor) : Int)) / k
                - (counter + 1) / k) =
              deleted + ((counter + (countLiveFrom p (cursorStart cursor) : Int)) / k
                - counter / k) := by
            rw [hdivk]
            ring
          rw [hc2]
        · intro m hm
          rw [hbelow m (by omega), hdother m (by omega)]
        · have hpref : countLiveFrom p' (cursorStart cursor) =
              countLiveFrom p' (j + 1) := by
            apply countLiveFrom_dead_prefix p' (cursorStart cursor) (j + 1) (by omega)
            intro m hm hmlt
            by_cases hmj : m = j
            · rw [hmj, hbelow j (by omega)]
              omega
            · rw [hbelow m (by omega), hdother m hmj]
              exact hpre m hm (by omega)
          rw [hpref, hcount', hnum, hdivk, hcnt]
          push_cast
          ring
      · rw [if_neg hdiv]
        have hmod : (counter + 1) % k ≠ 0 := fun h => hdiv ⟨hk, h⟩
        have hdivk : (counter + 1) / k = counter / k :=
          succ_ediv_of_emod_ne counter k hk hmod
        obtain ⟨p', heq, hsc', hbelow, hcount'⟩ :=
          deleteLoop_spec fuel p (j : Int) (counter + 1) deleted k hk (by omega)
            (by rw [cursorStart_natCast]; omega)
        rw [cursorStart_natCast] at heq hbelow hcount'
        have hnum : counter + 1 + (countLiveFrom p (j + 1) : Int) =
            counter + (countLiveFrom p (cursorStart cursor) : Int) := by
          rw [hcnt]
          push_cast
          ring
        refine ⟨p', ?_, hsc', ?_, ?_⟩
        · rw [heq, hnum, hdivk]
        · intro m hm
          rw [hbelow m (by omega)]
        · have hpref : countLiveFrom p' (cursorStart cursor) =
              countLiveFrom p' j := by
            apply countLiveFrom_dead_prefix p' (cursorStart cursor) j hij
            intro m hm hmlt
            rw [hbelow m (by omega)]
            exact hpre m hm hmlt
          have hlivej : countLiveFrom p' j = countLiveFrom p' (j + 1) + 1 := by
            apply countLiveFrom_live p' j (by omega)
            rw [hbelow j (by omega)]
            exact hjlive
          rw [hpref, hlivej]
          push_cast
          rw [hcount', hnum, hdivk, hcnt]
          push_cast
          ring
    · have h0 := scanFrom_none_count p _ hs
      refine ⟨p, ?_, rfl, fun m _ => rfl, ?_⟩
      · simp only [deleteLoop]
        rw [hgn, if_neg (by norm_num [SP_ERR_EMPTY, SP_OK]), h0]
        simp
      · rw [h0]
        simp

theorem deleteEveryPages_spec :
    ∀ (pages : List SP_Page) (counter deleted k : Int), 0 < k → 0 ≤ counter →
      ∃ pages' : List SP_Page,
        deleteEveryPages k pages counter deleted =
          (pages', counter + (totalLive pages : Int),
            deleted + ((counter + (totalLive pages : Int)) / k - counter / k)) ∧
        (totalLive pages' : Int) =
          (totalLive pages : Int) -
            ((counter + (totalLive pages : Int)) / k - counter / k)
  | [], counter, deleted, k, hk, hc => by
    refine ⟨[], ?_, ?_⟩
    · simp [deleteEveryPages, totalLive]
    · simp [totalLive]
  | p :: rest, counter, deleted, k, hk, hc => by
    have hfuel : countLiveFrom p (cursorStart (-1)) < p.slotCount.toNat + 1 := by
      rw [cursorStart_neg_one]
      have := countLiveFrom_le p 0
      omega
    obtain ⟨p1, heq1, hsc1, hb1, hcnt1⟩ :=
      deleteLoop_spec (p.slotCount.toNat + 1) p (-1) counter deleted k hk hc hfuel
    rw [cursorStart_neg_one] at heq1 hcnt1
    obtain ⟨rest', heq2, hcnt2⟩ :=
      deleteEveryPages_spec rest (counter + (countLiveFrom p 0 : Int))
        (deleted + ((counter + (countLiveFrom p 0 : Int)) / k - counter / k)) k hk
        (by positivity)
    have htl : (totalLive (p :: rest) : Int) =
        (countLiveFrom p 0 : Int) + (totalLive rest : Int) := by
      unfold totalLive
      push_cast [List.map_cons, List.sum_cons]
      ring
    refine ⟨p1 :: rest', ?_, ?_⟩
    · simp only [deleteEveryPages]
      rw [heq1]
      dsimp only
      rw [heq2]
      dsimp only
      have hassoc : counter + (countLiveFrom p 0 : Int) + (totalLive rest : Int) =
          counter + (totalLive (p :: rest) : Int) := by
        rw [htl]
        ring
      rw [hassoc]
      have hB : deleted + ((counter + (countLiveFrom p 0 : Int)) / k - counter / k) +
          ((counter + (totalLive (p :: rest) : Int)) / k -
            (counter + (countLiveFrom p 0 : Int)) / k) =
          deleted + ((counter + (totalLive (p :: rest) : Int)) / k - counter / k) := by
        ring
      rw [hB]
    · have htl2 : (totalLive (p1 :: rest') : Int) =
          (countLiveFrom p1 0 : Int) + (totalLive rest' : Int) := by
        unfold totalLive
        push_cast [List.map_cons, List.sum_cons]
        ring
      have hassoc : counter + (countLiveFrom p 0 : Int) + (totalLive rest : Int) =
          counter + (totalLive (p :: rest) : Int) := by
        rw [htl]
        ring
      rw [htl2, hcnt1, hcnt2, hassoc, htl]
      ring

theorem scanCount_fold :
    ∀ (pages : List SP_Page) (acc : Int),
      pages.foldl (fun a q => scanLoop (q.slotCount.toNat + 1) q (-1) a) acc =
        acc + (totalLive pages : Int)
  | [], acc => by simp [totalLive]
  | q :: rest, acc => by
    simp only [List.foldl]
    rw [scanLoop_spec (q.slotCount.toNat + 1) q (-1) acc
      (by rw [cursorStart_neg_one]; have := countLiveFrom_le q 0; omega)]
    rw [cursorStart_neg_one]
    rw [scanCount_fold rest (acc + (countLiveFrom q 0 : Int))]
    have htl : (totalLive (q :: rest) : Int) =
        (countLiveFrom q 0 : Int) + (totalLive rest : Int) := by
      unfold totalLive
      push_cast [List.map_cons, List.sum_cons]
      ring
    rw [htl]
    ring

/-- C5: with delete step `k > 0` on a store of pages holding `N` live
records, the loader's deletion pass (counter carried across page boundaries)
deletes exactly `⌊N/k⌋` records, and the subsequent full scan counts exactly
`N - ⌊N/k⌋` live records. -/
theorem C5_delete_every_kth_record (pages : List SP_Page) (k : Int) (hk : 0 < k) :
    (deleteEvery k pages).2 = (totalLive pages : Int) / k ∧
    scanCount (deleteEvery k pages).1 =
      (totalLive pages : Int) - (totalLive pages : Int) / k := by
  obtain ⟨pages', heq, htot⟩ := deleteEveryPages_spec pages 0 0 k hk le_rfl
  simp only [zero_add, Int.zero_ediv, sub_zero] at heq htot
  constructor
  · simp only [deleteEvery]
    rw [heq]
  · simp only [deleteEvery]
    rw [heq]
    dsimp only
    unfold scanCount
    rw [scanCount_fold pages' 0, htot]
    ring

/-- Witness for C5: the one-page store holding a single record, step 1. -/
theorem C5_delete_every_kth_record_witness :
    (0 : Int) < 1 ∧
    ((deleteEvery 1 [(SP_InsertRecord SP_InitPage [7] 1).2.1]).2 =
      (totalLive [(SP_InsertRecord SP_InitPage [7] 1).2.1] : Int) / 1 ∧
    scanCount (deleteEvery 1 [(SP_InsertRecord SP_InitPage [7] 1).2.1]).1 =
      (totalLive [(SP_InsertRecord SP_InitPage [7] 1).2.1] : Int) -
        (totalLive [(SP_InsertRecord SP_InitPage [7] 1).2.1] : Int) / 1) :=
  ⟨by decide,
    C5_delete_every_kth_record [(SP_InsertRecord SP_InitPage [7] 1).2.1] 1 (by decide)⟩

end ToyDB
